import Mathlib

set_option linter.unusedVariables false

/-!
Shallow embedding of the multi-tenant SaaS CRM backend: the in-memory
entity store (`MemStorage` from `server/storage.ts`) and the REST route
handlers (`registerRoutes`).  JavaScript `Map`s are modelled as Lean
lists in insertion order (`Map.set` of a fresh key appends, `Map.set` of
an existing key replaces in place, `Map.delete` filters); `Date` values
are modelled as `Nat` timestamps supplied by the caller; `randomUUID`
and `randomBytes` are modelled as explicit fresh-value parameters;
`bcrypt` and `sha256` are external one-way primitives, modelled as
function parameters.  Fallible operations return `Except`; route
handlers return an HTTP status plus payload together with the
post-state of the store.
-/

namespace SaaS

/-- `users` table row (shared/schema.ts). -/
structure User where
  id : String
  email : String
  passwordHash : String
  name : String
  stripeCustomerId : Option String
  stripeSubscriptionId : Option String
  createdAt : Nat
  deriving Repr, DecidableEq

/-- `organizations` table row. -/
structure Organization where
  id : String
  name : String
  ownerId : String
  stripeCustomerId : Option String
  stripeSubscriptionId : Option String
  plan : String
  trialEnd : Option Nat
  createdAt : Nat
  deriving Repr, DecidableEq

/-- `org_members` table row. -/
structure OrgMember where
  orgId : String
  userId : String
  role : String
  invitedBy : Option String
  invitedAt : Nat
  acceptedAt : Option Nat
  createdAt : Nat
  deriving Repr, DecidableEq

/-- `api_keys` table row.  Note: there is no plaintext field; only the
hash and the truncated preview are persisted. -/
structure ApiKey where
  id : String
  orgId : String
  name : String
  keyHash : String
  keyPreview : String
  lastUsedAt : Option Nat
  createdBy : String
  createdAt : Nat
  deriving Repr, DecidableEq

/-- `subscriptions` table row (`metered` JSON modelled as key/value list). -/
structure Subscription where
  orgId : String
  plan : String
  status : String
  periodEnd : Option Nat
  metered : List (String × Nat)
  updatedAt : Nat
  deriving Repr, DecidableEq

/-- `audit_logs` table row (`metadata` JSON modelled as key/value list). -/
structure AuditLog where
  id : Nat
  orgId : String
  actorId : Option String
  action : String
  entity : String
  entityId : Option String
  metadata : List (String × String)
  createdAt : Nat
  deriving Repr, DecidableEq

/-- `pipelines` table row. -/
structure Pipeline where
  id : String
  orgId : String
  name : String
  createdAt : Nat
  deriving Repr, DecidableEq

/-- `stages` table row. -/
structure Stage where
  id : String
  orgId : String
  pipelineId : String
  name : String
  order : Int
  createdAt : Nat
  deriving Repr, DecidableEq

/-- `leads` table row. -/
structure Lead where
  id : String
  orgId : String
  stageId : String
  name : String
  email : Option String
  source : Option String
  notes : Option String
  airtableRecordId : Option String
  createdAt : Nat
  updatedAt : Nat
  deriving Repr, DecidableEq

/-- `lead_comments` table row. -/
structure LeadComment where
  id : String
  orgId : String
  leadId : String
  body : String
  userId : String
  mentionedUserIds : Option (List String)
  createdAt : Nat
  deriving Repr, DecidableEq

/-- Result of `getOrgMembers`: a membership joined with the user
record (`{...member, user: {id, name, email}}`, empty strings when the
user is missing). -/
structure OrgMemberWithUser where
  member : OrgMember
  userInfoId : String
  userInfoName : String
  userInfoEmail : String
  deriving Repr, DecidableEq

/-- Result of `getLeadComments`: a comment joined with the author
(`{...comment, user: {id, name}}`). -/
structure CommentWithUser where
  comment : LeadComment
  userInfoId : String
  userInfoName : String
  deriving Repr, DecidableEq

/-- `settings` table row (`value` JSON modelled as a string). -/
structure Setting where
  orgId : String
  key : String
  value : String
  updatedBy : String
  updatedAt : Nat
  deriving Repr, DecidableEq

/-- The full `MemStorage` state: one JavaScript `Map` per entity kind,
each modelled as a list in insertion order.  `orgMembers` and
`settings` are keyed by a composite string key, kept explicitly;
`subscriptions` is keyed by the `orgId` field; the remaining maps are
keyed by the `id` field of the stored value. -/
structure MemStorage where
  users : List User
  organizations : List Organization
  orgMembers : List (String × OrgMember)
  apiKeys : List ApiKey
  settings : List (String × Setting)
  subscriptions : List Subscription
  auditLogs : List AuditLog
  pipelines : List Pipeline
  stages : List Stage
  leads : List Lead
  leadComments : List LeadComment
  deriving Repr, DecidableEq

/-- `Map.set` on an association list: replace in place when the key
exists, append otherwise. -/
def mapSet {α : Type} (l : List (String × α)) (k : String) (v : α) : List (String × α) :=
  if l.any (fun p => p.fst = k) then
    l.map (fun p => if p.fst = k then (k, v) else p)
  else l ++ [(k, v)]

/-- `Map.get` on an association list. -/
def mapGet {α : Type} (l : List (String × α)) (k : String) : Option α :=
  (l.find? (fun p => p.fst = k)).map Prod.snd

/-- JavaScript string `.substring(0, n)` (first `n` code points). -/
def jsTake (s : String) (n : Nat) : String :=
  String.mk (s.data.take n)

/-- Length of a string, as the length of its character list. -/
def strLen (s : String) : Nat :=
  s.data.length

-- ---------------------------------------------------------------------
-- Storage operations (MemStorage methods from server/storage.ts)
-- ---------------------------------------------------------------------

/-- `getUserById`. -/
def MemStorage.getUserById (s : MemStorage) (id : String) : Option User :=
  s.users.find? (fun u => u.id = id)

/-- `getUserByEmail`. -/
def MemStorage.getUserByEmail (s : MemStorage) (email : String) : Option User :=
  s.users.find? (fun u => u.email = email)

/-- `createUser`: hashes the password with the external `bcrypt`
primitive (passed as `bhash`) and appends the new user under a fresh
uuid. -/
def MemStorage.createUser (s : MemStorage) (email password name : String)
    (bhash : String → String) (freshId : String) (now : Nat) : User × MemStorage :=
  let user : User :=
    { id := freshId, email := email, passwordHash := bhash password, name := name,
      stripeCustomerId := none, stripeSubscriptionId := none, createdAt := now }
  (user, { s with users := s.users ++ [user] })

/-- Composite key of the `orgMembers` map: `orgId-userId`. -/
def memberKey (orgId userId : String) : String :=
  orgId ++ "-" ++ userId

/-- `addOrgMember`. -/
def MemStorage.addOrgMember (s : MemStorage) (orgId userId role : String)
    (invitedBy : Option String) (acceptedAt : Option Nat) (now : Nat) :
    OrgMember × MemStorage :=
  let member : OrgMember :=
    { orgId := orgId, userId := userId, role := role, invitedBy := invitedBy,
      invitedAt := now, acceptedAt := acceptedAt, createdAt := now }
  (member, { s with orgMembers := mapSet s.orgMembers (memberKey orgId userId) member })

/-- `getOrgMember`. -/
def MemStorage.getOrgMember (s : MemStorage) (orgId userId : String) : Option OrgMember :=
  mapGet s.orgMembers (memberKey orgId userId)

/-- `getOrgMembers`: memberships of the organization joined with their
user records (missing users become empty strings). -/
def MemStorage.getOrgMembers (s : MemStorage) (orgId : String) : List OrgMemberWithUser :=
  ((s.orgMembers.map Prod.snd).filter (fun m => decide (m.orgId = orgId))).map fun m =>
    match s.users.find? (fun u => u.id = m.userId) with
    | some u => ⟨m, u.id, u.name, u.email⟩
    | none => ⟨m, "", "", ""⟩

/-- `createOrganization`: inserts the organization, auto-admits the
owner as an accepted admin member, and creates the default free
subscription. -/
def MemStorage.createOrganization (s : MemStorage) (name : String) (plan : Option String)
    (ownerId : String) (freshId : String) (now : Nat) : Organization × MemStorage :=
  let org : Organization :=
    { id := freshId, name := name, ownerId := ownerId,
      stripeCustomerId := none, stripeSubscriptionId := none,
      plan := plan.getD "free", trialEnd := none, createdAt := now }
  let s1 : MemStorage := { s with organizations := s.organizations ++ [org] }
  let (_, s2) := s1.addOrgMember freshId ownerId "admin" (some ownerId) (some now) now
  let sub : Subscription :=
    { orgId := freshId, plan := "free", status := "active", periodEnd := none,
      metered := [], updatedAt := now }
  (org, { s2 with subscriptions :=
    (mapSet (s2.subscriptions.map (fun x => (x.orgId, x))) freshId sub).map Prod.snd })

/-- `getSubscription`. -/
def MemStorage.getSubscription (s : MemStorage) (orgId : String) : Option Subscription :=
  s.subscriptions.find? (fun x => x.orgId = orgId)

/-- `createAuditLog` (id is `auditLogs.length + 1`). -/
def MemStorage.createAuditLog (s : MemStorage) (orgId : String) (actorId : Option String)
    (action entity : String) (entityId : Option String)
    (metadata : List (String × String)) (now : Nat) : AuditLog × MemStorage :=
  let log : AuditLog :=
    { id := s.auditLogs.length + 1, orgId := orgId, actorId := actorId,
      action := action, entity := entity, entityId := entityId,
      metadata := metadata, createdAt := now }
  (log, { s with auditLogs := s.auditLogs ++ [log] })

/-- `createApiKey`. -/
def MemStorage.createApiKey (s : MemStorage) (orgId name keyHash keyPreview createdBy : String)
    (freshId : String) (now : Nat) : ApiKey × MemStorage :=
  let key : ApiKey :=
    { id := freshId, orgId := orgId, name := name, keyHash := keyHash,
      keyPreview := keyPreview, lastUsedAt := none, createdBy := createdBy,
      createdAt := now }
  (key, { s with apiKeys := s.apiKeys ++ [key] })

/-- `getApiKeys`. -/
def MemStorage.getApiKeys (s : MemStorage) (orgId : String) : List ApiKey :=
  s.apiKeys.filter (fun k => decide (k.orgId = orgId))

/-- The comparison applied to `apiKeys` in `deleteApiKey`: delete only
when the record exists and belongs to the given organization. -/
def apiKeysRemove (l : List ApiKey) (id orgId : String) : List ApiKey :=
  match l.find? (fun k => k.id = id) with
  | some k => if k.orgId = orgId then l.filter (fun k2 => decide (k2.id ≠ id)) else l
  | none => l

/-- `deleteApiKey`. -/
def MemStorage.deleteApiKey (s : MemStorage) (id orgId : String) : MemStorage :=
  { s with apiKeys := apiKeysRemove s.apiKeys id orgId }

/-- `createPipeline`. -/
def MemStorage.createPipeline (s : MemStorage) (orgId name : String)
    (freshId : String) (now : Nat) : Pipeline × MemStorage :=
  let p : Pipeline := { id := freshId, orgId := orgId, name := name, createdAt := now }
  (p, { s with pipelines := s.pipelines ++ [p] })

/-- `getPipelines`: the organization's pipelines sorted by creation
time ascending. -/
def MemStorage.getPipelines (s : MemStorage) (orgId : String) : List Pipeline :=
  (s.pipelines.filter (fun p => decide (p.orgId = orgId))).insertionSort
    (fun a b => a.createdAt ≤ b.createdAt)

/-- `getPipeline`: id lookup scoped by organization (wrong organization
behaves as not-found). -/
def MemStorage.getPipeline (s : MemStorage) (id orgId : String) : Option Pipeline :=
  match s.pipelines.find? (fun p => p.id = id) with
  | some p => if p.orgId = orgId then some p else none
  | none => none

/-- `createStage`. -/
def MemStorage.createStage (s : MemStorage) (orgId pipelineId name : String) (order : Int)
    (freshId : String) (now : Nat) : Stage × MemStorage :=
  let st : Stage := { id := freshId, orgId := orgId, pipelineId := pipelineId,
                      name := name, order := order, createdAt := now }
  (st, { s with stages := s.stages ++ [st] })

/-- `getStages`: stages of the pipeline (scoped by organization) sorted
by `order` ascending. -/
def MemStorage.getStages (s : MemStorage) (pipelineId orgId : String) : List Stage :=
  (s.stages.filter (fun st => decide (st.pipelineId = pipelineId ∧ st.orgId = orgId))).insertionSort
    (fun a b => a.order ≤ b.order)

/-- `getStage`: id lookup scoped by organization. -/
def MemStorage.getStage (s : MemStorage) (id orgId : String) : Option Stage :=
  match s.stages.find? (fun st => st.id = id) with
  | some st => if st.orgId = orgId then some st else none
  | none => none

/-- A `Partial<Stage>` update payload. -/
structure StagePatch where
  name : Option String
  order : Option Int
  deriving Repr, DecidableEq

/-- The `{...stage, ...updates}` merge. -/
def applyStagePatch (st : Stage) (p : StagePatch) : Stage :=
  { st with name := p.name.getD st.name, order := p.order.getD st.order }

/-- `updateStage`: throws `Stage not found` when the id does not
resolve within the organization. -/
def MemStorage.updateStage (s : MemStorage) (id orgId : String) (patch : StagePatch) :
    Except String (Stage × MemStorage) :=
  match s.getStage id orgId with
  | none => Except.error "Stage not found"
  | some st =>
    let updated := applyStagePatch st patch
    Except.ok (updated,
      { s with stages := s.stages.map (fun x => if x.id = id then updated else x) })

/-- `createLead`. -/
def MemStorage.createLead (s : MemStorage) (orgId stageId name : String)
    (email source notes : Option String) (freshId : String) (now : Nat) :
    Lead × MemStorage :=
  let l : Lead := { id := freshId, orgId := orgId, stageId := stageId, name := name,
                    email := email, source := source, notes := notes,
                    airtableRecordId := none, createdAt := now, updatedAt := now }
  (l, { s with leads := s.leads ++ [l] })

/-- `getLeads`: leads of the stage (scoped by organization) sorted by
`updatedAt` descending. -/
def MemStorage.getLeads (s : MemStorage) (stageId orgId : String) : List Lead :=
  (s.leads.filter (fun l => decide (l.stageId = stageId ∧ l.orgId = orgId))).insertionSort
    (fun a b => b.updatedAt ≤ a.updatedAt)

/-- `getLead`: id lookup scoped by organization. -/
def MemStorage.getLead (s : MemStorage) (id orgId : String) : Option Lead :=
  match s.leads.find? (fun l => l.id = id) with
  | some l => if l.orgId = orgId then some l else none
  | none => none

/-- A `Partial<Lead>` update payload. -/
structure LeadPatch where
  stageId : Option String
  name : Option String
  email : Option (Option String)
  source : Option (Option String)
  notes : Option (Option String)
  deriving Repr, DecidableEq

/-- The `{...lead, ...updates, updatedAt: new Date()}` merge. -/
def applyLeadPatch (l : Lead) (p : LeadPatch) (now : Nat) : Lead :=
  { l with stageId := p.stageId.getD l.stageId, name := p.name.getD l.name,
           email := p.email.getD l.email, source := p.source.getD l.source,
           notes := p.notes.getD l.notes, updatedAt := now }

/-- `updateLead`: throws `Lead not found` when the id does not resolve
within the organization; always refreshes `updatedAt`. -/
def MemStorage.updateLead (s : MemStorage) (id orgId : String) (patch : LeadPatch) (now : Nat) :
    Except String (Lead × MemStorage) :=
  match s.getLead id orgId with
  | none => Except.error "Lead not found"
  | some l =>
    let updated := applyLeadPatch l patch now
    Except.ok (updated,
      { s with leads := s.leads.map (fun x => if x.id = id then updated else x) })

/-- `moveLeadToStage` = `updateLead` with a `stageId`-only patch. -/
def MemStorage.moveLeadToStage (s : MemStorage) (leadId stageId orgId : String) (now : Nat) :
    Except String (Lead × MemStorage) :=
  s.updateLead leadId orgId
    { stageId := some stageId, name := none, email := none, source := none, notes := none } now

/-- `createLeadComment`. -/
def MemStorage.createLeadComment (s : MemStorage) (orgId leadId body userId : String)
    (mentionedUserIds : Option (List String)) (freshId : String) (now : Nat) :
    LeadComment × MemStorage :=
  let c : LeadComment := { id := freshId, orgId := orgId, leadId := leadId, body := body,
                           userId := userId, mentionedUserIds := mentionedUserIds,
                           createdAt := now }
  (c, { s with leadComments := s.leadComments ++ [c] })

/-- The `{...comment, user: {id, name}}` join used by
`getLeadComments`. -/
def commentJoinUser (s : MemStorage) (c : LeadComment) : CommentWithUser :=
  match s.users.find? (fun u => u.id = c.userId) with
  | some u => ⟨c, u.id, if u.name = "" then "Unknown User" else u.name⟩
  | none => ⟨c, "", "Unknown User"⟩

/-- `getLeadComments`: comments of the lead (scoped by organization)
sorted by `createdAt` ascending, joined with the author. -/
def MemStorage.getLeadComments (s : MemStorage) (leadId orgId : String) : List CommentWithUser :=
  ((s.leadComments.filter (fun c => decide (c.leadId = leadId ∧ c.orgId = orgId))).insertionSort
    (fun a b => a.createdAt ≤ b.createdAt)).map (commentJoinUser s)

/-- The comparison applied to `leadComments` in `deleteLeadComment`:
delete only when the record exists and belongs to the organization. -/
def leadCommentsRemove (l : List LeadComment) (id orgId : String) : List LeadComment :=
  match l.find? (fun c => c.id = id) with
  | some c => if c.orgId = orgId then l.filter (fun c2 => decide (c2.id ≠ id)) else l
  | none => l

/-- `deleteLeadComment`. -/
def MemStorage.deleteLeadComment (s : MemStorage) (id orgId : String) : MemStorage :=
  { s with leadComments := leadCommentsRemove s.leadComments id orgId }

/-- `deleteLead`: cascade-deletes the lead's comments, then removes the
lead; a no-op when the lead does not resolve within the organization. -/
def MemStorage.deleteLead (s : MemStorage) (id orgId : String) : MemStorage :=
  match s.getLead id orgId with
  | none => s
  | some _ =>
    let comments := s.getLeadComments id orgId
    let s1 := comments.foldl (fun (acc : MemStorage) (cw : CommentWithUser) => acc.deleteLeadComment cw.comment.id orgId) s
    { s1 with leads := s1.leads.filter (fun l => decide (l.id ≠ id)) }

/-- `deleteStage`: cascade-deletes the stage's leads, then removes the
stage; a no-op when the stage does not resolve within the organization. -/
def MemStorage.deleteStage (s : MemStorage) (id orgId : String) : MemStorage :=
  match s.getStage id orgId with
  | none => s
  | some _ =>
    let ls := s.getLeads id orgId
    let s1 := ls.foldl (fun acc l => acc.deleteLead l.id orgId) s
    { s1 with stages := s1.stages.filter (fun st => decide (st.id ≠ id)) }

/-- `deletePipeline`: cascade-deletes the pipeline's stages, then
removes the pipeline; a no-op when the pipeline does not resolve within
the organization. -/
def MemStorage.deletePipeline (s : MemStorage) (id orgId : String) : MemStorage :=
  match s.getPipeline id orgId with
  | none => s
  | some _ =>
    let sts := s.getStages id orgId
    let s1 := sts.foldl (fun acc st => acc.deleteStage st.id orgId) s
    { s1 with pipelines := s1.pipelines.filter (fun p => decide (p.id ≠ id)) }

/-- The loop body of `reorderStages`: apply `(id, order)` entries
sequentially; an `updateStage` throw aborts the loop, leaving the
mutations already made in place. -/
def reorderGo (orgId : String) : MemStorage → List (String × Int) → Except String Unit × MemStorage
  | s, [] => (Except.ok Unit.unit, s)
  | s, (id, ord) :: rest =>
    match s.updateStage id orgId { name := none, order := some ord } with
    | Except.error e => (Except.error e, s)
    | Except.ok (_, s2) => reorderGo orgId s2 rest

/-- `reorderStages` (the `pipelineId` parameter is unused by the
implementation). -/
def MemStorage.reorderStages (s : MemStorage) (pipelineId orgId : String)
    (stageOrders : List (String × Int)) : Except String Unit × MemStorage :=
  reorderGo orgId s stageOrders

-- ---------------------------------------------------------------------
-- HTTP layer (registerRoutes from server/routes.ts)
-- ---------------------------------------------------------------------

/-- An HTTP response: `ok` is `res.json(payload)` (status 200), `err n
msg` is `res.status(n).json({error: msg})`. -/
inductive HttpRes (α : Type) where
  | ok : α → HttpRes α
  | err : Nat → String → HttpRes α
  deriving Repr, DecidableEq

/-- The HTTP status code of a response. -/
def HttpRes.status {α : Type} : HttpRes α → Nat
  | HttpRes.ok _ => 200
  | HttpRes.err n _ => n

/-- The `{user: {id, email, name}}` auth payload. -/
structure AuthUser where
  id : String
  email : String
  name : String
  deriving Repr, DecidableEq

/-- `PLAN_LIMITS` (shared/schema.ts).  Indexing with an unknown plan
string yields `undefined` in the source, modelled as `none`. -/
structure PlanLimits where
  organizations : Nat
  members : Nat
  operations : Nat
  tableMappings : Nat
  pipelines : Nat
  deriving Repr, DecidableEq

/-- The `PLAN_LIMITS` table. -/
def PLAN_LIMITS : String → Option PlanLimits
  | "free" => some ⟨1, 3, 1000, 1, 1⟩
  | "pro" => some ⟨5, 15, 100000, 10, 5⟩
  | "team" => some ⟨20, 50, 1000000, 30, 20⟩
  | _ => none

/-- The `requireAuth` and `requireOrgAccess` middlewares: 401 without a
session user, 401 when the organization id is falsy, 403 when the
caller is not a member; otherwise the handler runs with the resolved
membership (`req.orgMember`). -/
def withOrgAccess {α : Type} (s : MemStorage) (orgId : String) (caller : Option String)
    (handler : OrgMember → String → HttpRes α × MemStorage) : HttpRes α × MemStorage :=
  match caller with
  | none => (HttpRes.err 401 "Authentication required", s)
  | some uid =>
    if orgId = "" then (HttpRes.err 401 "Organization access required", s)
    else
      match s.getOrgMember orgId uid with
      | none => (HttpRes.err 403 "Access denied to organization", s)
      | some m => handler m uid

/-- ASCII apostrophe. -/
def apostrophe : Char := Char.ofNat 39

/-- The default organization name created at signup:
`{name}'s Organization`. -/
def defaultOrgName (name : String) : String :=
  name ++ String.mk [apostrophe] ++ "s Organization"

/-- `POST /api/auth/signup`: rejects an already-registered email,
creates the user, then best-effort creates the default organization
inside a `try` block whose failure is swallowed (`orgStepOk = false`
models a throw inside that block); the response always returns the
created user. -/
def signupRoute (s : MemStorage) (email password name : String)
    (bhash : String → String) (freshUserId freshOrgId : String) (now : Nat)
    (orgStepOk : Bool) : HttpRes AuthUser × MemStorage :=
  match s.getUserByEmail email with
  | some _ => (HttpRes.err 400 "User already exists", s)
  | none =>
    let (user, s1) := s.createUser email password name bhash freshUserId now
    let s2 :=
      if orgStepOk then
        let (org, sA) := s1.createOrganization (defaultOrgName name) none user.id freshOrgId now
        let (_, sB) := sA.createAuditLog org.id (some user.id) "create" "organization"
          (some org.id) [("name", org.name)] now
        sB
      else s1
    (HttpRes.ok { id := user.id, email := user.email, name := user.name }, s2)

/-- `POST /api/organizations/:organizationId/members`: admin/editor
only; the invited email must belong to a registered user (else 404)
who is not already a member (else 400). -/
def inviteMemberRoute (s : MemStorage) (orgId : String) (caller : Option String)
    (email role : String) (now : Nat) : HttpRes OrgMember × MemStorage :=
  withOrgAccess s orgId caller fun m uid =>
    if m.role = "admin" ∨ m.role = "editor" then
      match s.getUserByEmail email with
      | none => (HttpRes.err 404 "User not found", s)
      | some invited =>
        match s.getOrgMember orgId invited.id with
        | some _ => (HttpRes.err 400 "User is already a member", s)
        | none =>
          let (member, s1) := s.addOrgMember orgId invited.id role (some uid) (some now) now
          let (_, s2) := s1.createAuditLog orgId (some uid) "invite" "member"
            (some invited.id) [("email", email), ("role", role)] now
          (HttpRes.ok member, s2)
    else (HttpRes.err 403 "Insufficient permissions", s)

/-- The creation response payload `{...apiKey, keyValue}`: the stored
record plus the plaintext secret, returned only here. -/
structure CreatedApiKey where
  key : ApiKey
  keyValue : String
  deriving Repr, DecidableEq

/-- `POST /api/organizations/:organizationId/api-keys`: admin/editor
only; generates `sk_` + 48 hex chars (the random bytes are the
`randomHex` parameter), stores the sha256 hash (external primitive
passed as `sha256`) and a 12-char preview padded with 20 asterisks,
and returns the plaintext exactly once. -/
def createApiKeyRoute (s : MemStorage) (orgId : String) (caller : Option String)
    (name randomHex : String) (sha256 : String → String) (freshId : String) (now : Nat) :
    HttpRes CreatedApiKey × MemStorage :=
  withOrgAccess s orgId caller fun m uid =>
    if m.role = "admin" ∨ m.role = "editor" then
      let keyValue := "sk_" ++ randomHex
      let keyHash := sha256 keyValue
      let keyPreview := jsTake keyValue 12 ++ "********************"
      let (apiKey, s1) := s.createApiKey orgId name keyHash keyPreview uid freshId now
      let (_, s2) := s1.createAuditLog orgId (some uid) "create" "api_key"
        (some apiKey.id) [("name", name)] now
      (HttpRes.ok { key := apiKey, keyValue := keyValue }, s2)
    else (HttpRes.err 403 "Insufficient permissions", s)

/-- `GET /api/organizations/:organizationId/api-keys`: any member; the
response is the stored records, which carry only hash and preview. -/
def getApiKeysRoute (s : MemStorage) (orgId : String) (caller : Option String) :
    HttpRes (List ApiKey) × MemStorage :=
  withOrgAccess s orgId caller fun _ _ => (HttpRes.ok (s.getApiKeys orgId), s)

/-- `POST /api/organizations/:organizationId/pipelines`: admin/editor
only; rejects with 400 when the organization already holds at least as
many pipelines as its subscription plan allows (unknown plan strings
impose no limit, since `length >= undefined` is false). -/
def createPipelineRoute (s : MemStorage) (orgId : String) (caller : Option String)
    (name freshId : String) (now : Nat) : HttpRes Pipeline × MemStorage :=
  withOrgAccess s orgId caller fun m uid =>
    if m.role = "admin" ∨ m.role = "editor" then
      let plan := ((s.getSubscription orgId).map Subscription.plan).getD "free"
      let existing := s.getPipelines orgId
      let limitHit :=
        match PLAN_LIMITS plan with
        | some lim => decide (existing.length ≥ lim.pipelines)
        | none => false
      if limitHit then
        (HttpRes.err 400
          ("Pipeline limit reached for " ++ plan ++ " plan. Upgrade to create more pipelines."), s)
      else
        let (p, s1) := s.createPipeline orgId name freshId now
        let (_, s2) := s1.createAuditLog orgId (some uid) "create" "pipeline"
          (some p.id) [("name", p.name)] now
        (HttpRes.ok p, s2)
    else (HttpRes.err 403 "Insufficient permissions", s)

/-- `POST /api/organizations/:organizationId/leads/:leadId/move`:
admin/editor only; the destination stage is looked up scoped by the
calling organization (404 when absent), then the lead is re-parented;
a `Lead not found` throw from `moveLeadToStage` surfaces as 500. -/
def moveLeadRoute (s : MemStorage) (orgId : String) (caller : Option String)
    (leadId stageId : String) (now : Nat) : HttpRes Lead × MemStorage :=
  withOrgAccess s orgId caller fun m uid =>
    if m.role = "admin" ∨ m.role = "editor" then
      match s.getStage stageId orgId with
      | none => (HttpRes.err 404 "Stage not found", s)
      | some stage =>
        match s.moveLeadToStage leadId stageId orgId now with
        | Except.error e => (HttpRes.err 500 e, s)
        | Except.ok (lead, s1) =>
          let (_, s2) := s1.createAuditLog orgId (some uid) "move" "lead"
            (some lead.id) [("newStageId", stageId), ("stageName", stage.name)] now
          (HttpRes.ok lead, s2)
    else (HttpRes.err 403 "Insufficient permissions", s)

/-- A JavaScript word character (`\w` = `[A-Za-z0-9_]`). -/
def isWordChar (c : Char) : Bool :=
  c.isAlphanum || c = '_'

/-- The `/@(\w+)/g` scan as a character state machine: outside a
mention, `@` opens one; inside a mention (`acc` holds the token so
far, reversed), a word character extends it and any other character
closes it, emitting the token when non-empty and reprocessing `@` as
a new opener — exactly how the regex engine advances past each
match. -/
def mentionScanGo : List Char → Option (List Char) → List String
  | [], none => []
  | [], some acc => if acc.isEmpty then [] else [String.mk acc.reverse]
  | c :: rest, none =>
    if c = '@' then mentionScanGo rest (some []) else mentionScanGo rest none
  | c :: rest, some acc =>
    if isWordChar c then mentionScanGo rest (some (c :: acc))
    else
      (if acc.isEmpty then [] else [String.mk acc.reverse]) ++
        (if c = '@' then mentionScanGo rest (some []) else mentionScanGo rest none)

/-- The `/@(\w+)/g` scan: each `@` followed by a non-empty maximal run
of word characters yields that run as a token. -/
def mentionScan (l : List Char) : List String :=
  mentionScanGo l none

/-- `@token` patterns of a comment body. -/
def extractMentions (body : String) : List String :=
  mentionScan body.data

/-- `.toLowerCase()` (character-wise, as `String.toLower` computes
it). -/
def strToLower (s : String) : String :=
  String.mk (s.data.map Char.toLower)

/-- `name.toLowerCase().replace(/\s+/g, "")`. -/
def normalizeName (name : String) : String :=
  String.mk ((name.data.map Char.toLower).filter (fun c => !c.isWhitespace))

/-- The mention-resolution step of the comment-creation handler: each
extracted token, lower-cased, is looked up in a map from members'
lower-cased whitespace-stripped display names to user ids (built in
member order, later entries overwriting earlier ones); falsy ids and
the author are dropped. -/
def resolveMentions (s : MemStorage) (orgId authorId body : String) : List String :=
  let mentions := extractMentions body
  if mentions.length > 0 then
    let members := s.getOrgMembers orgId
    mentions.filterMap fun tok =>
      match (members.reverse.find? (fun m => normalizeName m.userInfoName = strToLower tok)).map
          OrgMemberWithUser.userInfoId with
      | some uid => if uid ≠ "" ∧ uid ≠ authorId then some uid else none
      | none => none
  else []

/-- `POST /api/organizations/:organizationId/leads/:leadId/comments`:
any member; resolves mentions, stores the comment (with `null`
mentions when none resolved), emits one `mention` audit entry per
resolved mention whose user exists, then the `create` audit entry. -/
def createLeadCommentRoute (s : MemStorage) (orgId : String) (caller : Option String)
    (leadId body : String) (freshId : String) (now : Nat) :
    HttpRes LeadComment × MemStorage :=
  withOrgAccess s orgId caller fun _ uid =>
    let mentionedUserIds := resolveMentions s orgId uid body
    let (comment, s1) := s.createLeadComment orgId leadId body uid
      (if mentionedUserIds.length > 0 then some mentionedUserIds else none) freshId now
    let s2 := mentionedUserIds.foldl (fun acc muid =>
        match acc.getUserById muid with
        | some mu =>
          (acc.createAuditLog orgId (some uid) "mention" "user" (some muid)
            [("leadId", leadId), ("leadName", (((s1.getLead leadId orgId).map Lead.name).getD "")),
             ("commentBody", body), ("mentionedUserEmail", mu.email)] now).2
        | none => acc) s1
    let (_, s3) := s2.createAuditLog orgId (some uid) "create" "comment"
      (some comment.id) [("leadId", leadId), ("body", jsTake body 100)] now
    (HttpRes.ok comment, s3)

-- ---------------------------------------------------------------------
-- A concrete store used by witnesses and counterexamples
-- ---------------------------------------------------------------------

/-- A small populated store: organization `org1` (owner `u1` "Bob
Jones" admin, `u2` "Alice Smith" editor, `u3` "Vic Viewer" viewer)
with pipeline `p1` → stage `s1` → lead `l1` → comment `c1`, and a
second organization `org2` (owner `u2`) with pipeline `p2` → stage
`s2`. -/
def exStore : MemStorage :=
  { users :=
      [ { id := "u1", email := "bob@x.com", passwordHash := "h1", name := "Bob Jones",
          stripeCustomerId := none, stripeSubscriptionId := none, createdAt := 0 },
        { id := "u2", email := "alice@x.com", passwordHash := "h2", name := "Alice Smith",
          stripeCustomerId := none, stripeSubscriptionId := none, createdAt := 0 },
        { id := "u3", email := "vic@x.com", passwordHash := "h3", name := "Vic Viewer",
          stripeCustomerId := none, stripeSubscriptionId := none, createdAt := 0 } ],
    organizations :=
      [ { id := "org1", name := "Org One", ownerId := "u1", stripeCustomerId := none,
          stripeSubscriptionId := none, plan := "free", trialEnd := none, createdAt := 0 },
        { id := "org2", name := "Org Two", ownerId := "u2", stripeCustomerId := none,
          stripeSubscriptionId := none, plan := "free", trialEnd := none, createdAt := 0 } ],
    orgMembers :=
      [ ("org1-u1", { orgId := "org1", userId := "u1", role := "admin", invitedBy := some "u1",
                      invitedAt := 0, acceptedAt := some 0, createdAt := 0 }),
        ("org1-u2", { orgId := "org1", userId := "u2", role := "editor", invitedBy := some "u1",
                      invitedAt := 0, acceptedAt := some 0, createdAt := 0 }),
        ("org1-u3", { orgId := "org1", userId := "u3", role := "viewer", invitedBy := some "u1",
                      invitedAt := 0, acceptedAt := some 0, createdAt := 0 }),
        ("org2-u2", { orgId := "org2", userId := "u2", role := "admin", invitedBy := some "u2",
                      invitedAt := 0, acceptedAt := some 0, createdAt := 0 }) ],
    apiKeys := [],
    settings := [],
    subscriptions :=
      [ { orgId := "org1", plan := "free", status := "active", periodEnd := none,
          metered := [], updatedAt := 0 },
        { orgId := "org2", plan := "free", status := "active", periodEnd := none,
          metered := [], updatedAt := 0 } ],
    auditLogs := [],
    pipelines :=
      [ { id := "p1", orgId := "org1", name := "Sales", createdAt := 0 },
        { id := "p2", orgId := "org2", name := "Other", createdAt := 0 } ],
    stages :=
      [ { id := "s1", orgId := "org1", pipelineId := "p1", name := "New", order := 1,
          createdAt := 0 },
        { id := "s2", orgId := "org2", pipelineId := "p2", name := "Won", order := 1,
          createdAt := 0 } ],
    leads :=
      [ { id := "l1", orgId := "org1", stageId := "s1", name := "Acme", email := none,
          source := none, notes := none, airtableRecordId := none, createdAt := 0,
          updatedAt := 0 } ],
    leadComments :=
      [ { id := "c1", orgId := "org1", leadId := "l1", body := "hello", userId := "u1",
          mentionedUserIds := none, createdAt := 0 } ] }

-- ---------------------------------------------------------------------
-- Helper lemmas about the scoped lookups and map primitives
-- ---------------------------------------------------------------------

/-- A scoped pipeline lookup fails when no pipeline with that id
belongs to the organization. -/
theorem getPipeline_eq_none (s : MemStorage) (id orgId : String)
    (h : ∀ p ∈ s.pipelines, p.id = id → p.orgId ≠ orgId) :
    s.getPipeline id orgId = none := by
  unfold MemStorage.getPipeline
  cases hf : s.pipelines.find? (fun p => p.id = id) with
  | none => rfl
  | some p =>
    have hp := List.mem_of_find?_eq_some hf
    have hid : p.id = id := by simpa using List.find?_some hf
    simp [h p hp hid]

/-- A scoped stage lookup fails when no stage with that id belongs to
the organization. -/
theorem getStage_eq_none (s : MemStorage) (id orgId : String)
    (h : ∀ st ∈ s.stages, st.id = id → st.orgId ≠ orgId) :
    s.getStage id orgId = none := by
  unfold MemStorage.getStage
  cases hf : s.stages.find? (fun st => st.id = id) with
  | none => rfl
  | some st =>
    have hp := List.mem_of_find?_eq_some hf
    have hid : st.id = id := by simpa using List.find?_some hf
    simp [h st hp hid]

/-- A scoped lead lookup fails when no lead with that id belongs to
the organization. -/
theorem getLead_eq_none (s : MemStorage) (id orgId : String)
    (h : ∀ l ∈ s.leads, l.id = id → l.orgId ≠ orgId) :
    s.getLead id orgId = none := by
  unfold MemStorage.getLead
  cases hf : s.leads.find? (fun l => l.id = id) with
  | none => rfl
  | some l =>
    have hp := List.mem_of_find?_eq_some hf
    have hid : l.id = id := by simpa using List.find?_some hf
    simp [h l hp hid]

/-- A successful scoped stage lookup always returns a record of the
requested organization. -/
theorem getStage_orgId (s : MemStorage) (id orgId : String) (st : Stage)
    (h : s.getStage id orgId = some st) : st.orgId = orgId := by
  unfold MemStorage.getStage at h
  cases hf : s.stages.find? (fun x => x.id = id) with
  | none => rw [hf] at h; cases h
  | some x =>
    rw [hf] at h
    dsimp only at h
    by_cases hx : x.orgId = orgId
    · rw [if_pos hx] at h; cases h; exact hx
    · rw [if_neg hx] at h; cases h

/-- A successful scoped pipeline lookup always returns a record of the
requested organization. -/
theorem getPipeline_orgId (s : MemStorage) (id orgId : String) (p : Pipeline)
    (h : s.getPipeline id orgId = some p) : p.orgId = orgId := by
  unfold MemStorage.getPipeline at h
  cases hf : s.pipelines.find? (fun x => x.id = id) with
  | none => rw [hf] at h; cases h
  | some x =>
    rw [hf] at h
    dsimp only at h
    by_cases hx : x.orgId = orgId
    · rw [if_pos hx] at h; cases h; exact hx
    · rw [if_neg hx] at h; cases h

/-- A successful scoped lead lookup always returns a record of the
requested organization. -/
theorem getLead_orgId (s : MemStorage) (id orgId : String) (l : Lead)
    (h : s.getLead id orgId = some l) : l.orgId = orgId := by
  unfold MemStorage.getLead at h
  cases hf : s.leads.find? (fun x => x.id = id) with
  | none => rw [hf] at h; cases h
  | some x =>
    rw [hf] at h
    dsimp only at h
    by_cases hx : x.orgId = orgId
    · rw [if_pos hx] at h; cases h; exact hx
    · rw [if_neg hx] at h; cases h

/-- The freshly set pair is always present after `mapSet`. -/
theorem mem_mapSet_self {α : Type} (l : List (String × α)) (k : String) (v : α) :
    (k, v) ∈ mapSet l k v := by
  unfold mapSet
  by_cases h : l.any (fun p => p.fst = k) = true
  · rw [if_pos h]
    obtain ⟨p, hp, hpk⟩ := List.any_eq_true.mp h
    have hk : p.fst = k := by simpa using hpk
    refine List.mem_map.mpr ⟨p, hp, ?_⟩
    rw [if_pos hk]
  · rw [if_neg h]
    simp

/-- Filtering `mapSet l k v` with a predicate satisfied by the new pair
and by none of the old pairs leaves exactly the new pair, provided the
map keys are unique. -/
theorem filter_mapSet_singleton {α : Type} (l : List (String × α)) (k : String) (v : α)
    (P : String × α → Bool)
    (hkeys : (l.map Prod.fst).Nodup) (hv : P (k, v) = true)
    (hold : ∀ kv ∈ l, P kv = false) :
    (mapSet l k v).filter P = [(k, v)] := by
  unfold mapSet
  by_cases h : l.any (fun p => p.fst = k) = true
  · rw [if_pos h]
    induction l with
    | nil => simp at h
    | cons p0 rest ih =>
      have hkeys' : (p0.fst :: rest.map Prod.fst).Nodup := by
        rw [List.map_cons] at hkeys; exact hkeys
      have hnotin : p0.fst ∉ rest.map Prod.fst := (List.nodup_cons.mp hkeys').1
      by_cases h0 : p0.fst = k
      · have hrest : ∀ q ∈ rest, ¬ q.fst = k := by
          intro q hq hqk
          exact hnotin (List.mem_map.mpr ⟨q, hq, by rw [hqk, h0]⟩)
        have hmap : rest.map (fun p => if p.fst = k then (k, v) else p) = rest := by
          calc rest.map (fun p => if p.fst = k then (k, v) else p)
              = rest.map id := List.map_congr_left (fun q hq => by
                rw [if_neg (hrest q hq)]; rfl)
            _ = rest := List.map_id rest
        have hfil : rest.filter P = [] := by
          apply List.filter_eq_nil_iff.mpr
          intro q hq
          simp [hold q (List.mem_cons_of_mem _ hq)]
        simp only [List.map_cons, if_pos h0, List.filter_cons, hv, hmap]
        simp [hfil]
      · have hany : rest.any (fun p => p.fst = k) = true := by
          rcases List.any_eq_true.mp h with ⟨q, hq, hqk⟩
          rcases List.mem_cons.mp hq with rfl | hq'
          · exact absurd (by simpa using hqk) h0
          · exact List.any_eq_true.mpr ⟨q, hq', hqk⟩
        have hP0 : P p0 = false := hold p0 (List.mem_cons_self _ _)
        simp only [List.map_cons, if_neg h0, List.filter_cons]
        rw [if_neg (by simp [hP0])]
        exact ih (List.nodup_cons.mp hkeys').2
          (fun kv hkv => hold kv (List.mem_cons_of_mem _ hkv)) hany
  · rw [if_neg h]
    rw [List.filter_append]
    have hfil : l.filter P = [] := by
      apply List.filter_eq_nil_iff.mpr
      intro q hq
      simp [hold q hq]
    simp [hfil, hv]

-- ---------------------------------------------------------------------
-- C10: deletes of absent or foreign-organization entities are no-ops
-- ---------------------------------------------------------------------

/-- C10: deleting an entity that does not exist, or whose record
belongs to a different organization, leaves the whole store unchanged
and returns normally (deletePipeline, deleteStage, deleteLead,
deleteApiKey, deleteLeadComment). -/
theorem delete_wrong_org_noop (s : MemStorage) (pid sid lid kid cid orgId : String)
    (hp : ∀ p ∈ s.pipelines, p.id = pid → p.orgId ≠ orgId)
    (hs : ∀ st ∈ s.stages, st.id = sid → st.orgId ≠ orgId)
    (hl : ∀ l ∈ s.leads, l.id = lid → l.orgId ≠ orgId)
    (hk : ∀ k ∈ s.apiKeys, k.id = kid → k.orgId ≠ orgId)
    (hc : ∀ c ∈ s.leadComments, c.id = cid → c.orgId ≠ orgId) :
    s.deletePipeline pid orgId = s ∧ s.deleteStage sid orgId = s ∧
      s.deleteLead lid orgId = s ∧ s.deleteApiKey kid orgId = s ∧
      s.deleteLeadComment cid orgId = s := by
  refine ⟨?_, ?_, ?_, ?_, ?_⟩
  · unfold MemStorage.deletePipeline
    rw [getPipeline_eq_none s pid orgId hp]
  · unfold MemStorage.deleteStage
    rw [getStage_eq_none s sid orgId hs]
  · unfold MemStorage.deleteLead
    rw [getLead_eq_none s lid orgId hl]
  · show { s with apiKeys := apiKeysRemove s.apiKeys kid orgId } = s
    have : apiKeysRemove s.apiKeys kid orgId = s.apiKeys := by
      unfold apiKeysRemove
      cases hf : s.apiKeys.find? (fun k => k.id = kid) with
      | none => rfl
      | some k =>
        have hmem := List.mem_of_find?_eq_some hf
        have hid : k.id = kid := by simpa using List.find?_some hf
        dsimp only
        rw [if_neg (hk k hmem hid)]
    rw [this]
  · show { s with leadComments := leadCommentsRemove s.leadComments cid orgId } = s
    have : leadCommentsRemove s.leadComments cid orgId = s.leadComments := by
      unfold leadCommentsRemove
      cases hf : s.leadComments.find? (fun c => c.id = cid) with
      | none => rfl
      | some c =>
        have hmem := List.mem_of_find?_eq_some hf
        have hid : c.id = cid := by simpa using List.find?_some hf
        dsimp only
        rw [if_neg (hc c hmem hid)]
    rw [this]

/-- Witness for C10 at the concrete store: `p2` and `s2` exist but
belong to the other tenant, while `zz` matches nothing. -/
theorem delete_wrong_org_noop_witness :
    exStore.deletePipeline "p2" "org1" = exStore ∧
      exStore.deleteStage "s2" "org1" = exStore ∧
      exStore.deleteLead "zz" "org1" = exStore ∧
      exStore.deleteApiKey "zz" "org1" = exStore ∧
      exStore.deleteLeadComment "zz" "org1" = exStore :=
  delete_wrong_org_noop exStore "p2" "s2" "zz" "zz" "zz" "org1"
    (by decide) (by decide) (by decide) (by decide) (by decide)

-- ---------------------------------------------------------------------
-- C7: createOrganization auto-admits the owner as admin
-- ---------------------------------------------------------------------

/-- C7: after `createOrganization` with owner `ownerId` and fresh id
`freshId`, the store holds exactly one membership for the pair (new
organization, owner); its role is `admin` and its `acceptedAt` is
non-null. -/
theorem createOrganization_owner_membership (s : MemStorage) (name : String)
    (plan : Option String) (ownerId freshId : String) (now : Nat)
    (hkeys : (s.orgMembers.map Prod.fst).Nodup)
    (hfresh : ∀ kv ∈ s.orgMembers, kv.snd.orgId ≠ freshId) :
    ∃ m : OrgMember,
      ((s.createOrganization name plan ownerId freshId now).2.orgMembers.filter
          (fun kv => decide (kv.snd.orgId = freshId ∧ kv.snd.userId = ownerId))) =
        [(memberKey freshId ownerId, m)] ∧
      m.role = "admin" ∧ m.acceptedAt = some now := by
  refine ⟨{ orgId := freshId, userId := ownerId, role := "admin", invitedBy := some ownerId,
            invitedAt := now, acceptedAt := some now, createdAt := now }, ?_, rfl, rfl⟩
  have horg : (s.createOrganization name plan ownerId freshId now).2.orgMembers =
      mapSet s.orgMembers (memberKey freshId ownerId)
        { orgId := freshId, userId := ownerId, role := "admin", invitedBy := some ownerId,
          invitedAt := now, acceptedAt := some now, createdAt := now } := rfl
  rw [horg]
  apply filter_mapSet_singleton _ _ _ _ hkeys
  · simp
  · intro kv hkv
    simp [hfresh kv hkv]

/-- Witness for C7 at the concrete store. -/
theorem createOrganization_owner_membership_witness :
    ∃ m : OrgMember,
      ((exStore.createOrganization "New Org" none "u1" "org9" 7).2.orgMembers.filter
          (fun kv => decide (kv.snd.orgId = "org9" ∧ kv.snd.userId = "u1"))) =
        [(memberKey "org9" "u1", m)] ∧
      m.role = "admin" ∧ m.acceptedAt = some 7 :=
  createOrganization_owner_membership exStore "New Org" none "u1" "org9" 7
    (by decide) (by decide)

-- ---------------------------------------------------------------------
-- C6: signup — duplicate email rejection and best-effort default org
-- ---------------------------------------------------------------------

/-- C6: signup with an already-registered email is rejected with 400
and changes nothing; otherwise the user is created and the default
organization named `{name}'s Organization` is created with the new
user as owner — and when the organization-creation block throws
(`orgStepOk = false`), the signup response still succeeds with the
created user and no organization is added. -/
theorem signup_duplicate_and_best_effort (s : MemStorage) (email password name : String)
    (bhash : String → String) (freshUserId freshOrgId : String) (now : Nat) :
    ((s.getUserByEmail email).isSome →
      ∀ orgStepOk : Bool,
        signupRoute s email password name bhash freshUserId freshOrgId now orgStepOk =
          (HttpRes.err 400 "User already exists", s)) ∧
    (s.getUserByEmail email = none →
      (signupRoute s email password name bhash freshUserId freshOrgId now true).1 =
          HttpRes.ok { id := freshUserId, email := email, name := name } ∧
        (signupRoute s email password name bhash freshUserId freshOrgId now true).2.users =
          s.users ++ [{ id := freshUserId, email := email, passwordHash := bhash password,
                        name := name, stripeCustomerId := none, stripeSubscriptionId := none,
                        createdAt := now }] ∧
        (signupRoute s email password name bhash freshUserId freshOrgId now true).2.organizations =
          s.organizations ++ [{ id := freshOrgId, name := defaultOrgName name,
                                ownerId := freshUserId, stripeCustomerId := none,
                                stripeSubscriptionId := none, plan := "free", trialEnd := none,
                                createdAt := now }] ∧
        (memberKey freshOrgId freshUserId,
          { orgId := freshOrgId, userId := freshUserId, role := "admin",
            invitedBy := some freshUserId, invitedAt := now, acceptedAt := some now,
            createdAt := now }) ∈
          (signupRoute s email password name bhash freshUserId freshOrgId now true).2.orgMembers) ∧
    (s.getUserByEmail email = none →
      (signupRoute s email password name bhash freshUserId freshOrgId now false).1 =
          HttpRes.ok { id := freshUserId, email := email, name := name } ∧
        (signupRoute s email password name bhash freshUserId freshOrgId now false).2.users =
          s.users ++ [{ id := freshUserId, email := email, passwordHash := bhash password,
                        name := name, stripeCustomerId := none, stripeSubscriptionId := none,
                        createdAt := now }] ∧
        (signupRoute s email password name bhash freshUserId freshOrgId now false).2.organizations =
          s.organizations) := by
  refine ⟨?_, ?_, ?_⟩
  · intro h orgStepOk
    obtain ⟨u, hu⟩ := Option.isSome_iff_exists.mp h
    unfold signupRoute
    rw [hu]
  · intro h
    unfold signupRoute
    rw [h]
    refine ⟨rfl, rfl, rfl, ?_⟩
    exact mem_mapSet_self _ _ _
  · intro h
    unfold signupRoute
    rw [h]
    exact ⟨rfl, rfl, rfl⟩

/-- Witness for C6 at the concrete store: `bob@x.com` is taken,
`ann@x.com` is fresh. -/
theorem signup_duplicate_and_best_effort_witness :
    signupRoute exStore "bob@x.com" "pw" "Ann" id "u9" "org9" 3 true =
        (HttpRes.err 400 "User already exists", exStore) ∧
      (signupRoute exStore "ann@x.com" "pw" "Ann" id "u9" "org9" 3 false).1 =
        HttpRes.ok { id := "u9", email := "ann@x.com", name := "Ann" } := by
  constructor
  · exact (signup_duplicate_and_best_effort exStore "bob@x.com" "pw" "Ann" id "u9" "org9" 3).1
      (by decide) true
  · exact ((signup_duplicate_and_best_effort exStore "ann@x.com" "pw" "Ann" id "u9" "org9"
      3).2.2 (by decide)).1

-- ---------------------------------------------------------------------
-- C4: plan-dependent pipeline limit
-- ---------------------------------------------------------------------

/-- C4: for an admin/editor caller, pipeline creation is rejected with
a 400 business-rule error (and the store is unchanged) when the
organization already holds at least as many pipelines as its
subscription plan allows (free 1, pro 5, team 20), and succeeds when
the count is below the limit. -/
theorem createPipeline_plan_limit (s : MemStorage) (orgId uid name freshId : String)
    (now : Nat) (m : OrgMember) (lim : PlanLimits)
    (hO : ¬ orgId = "") (hmem : s.getOrgMember orgId uid = some m)
    (hrole : m.role = "admin" ∨ m.role = "editor")
    (hlim : PLAN_LIMITS (((s.getSubscription orgId).map Subscription.plan).getD "free") =
      some lim) :
    ((s.getPipelines orgId).length ≥ lim.pipelines →
      createPipelineRoute s orgId (some uid) name freshId now =
        (HttpRes.err 400 ("Pipeline limit reached for " ++
          (((s.getSubscription orgId).map Subscription.plan).getD "free") ++
          " plan. Upgrade to create more pipelines."), s)) ∧
    ((s.getPipelines orgId).length < lim.pipelines →
      (createPipelineRoute s orgId (some uid) name freshId now).1 =
          HttpRes.ok { id := freshId, orgId := orgId, name := name, createdAt := now } ∧
        (createPipelineRoute s orgId (some uid) name freshId now).2.pipelines =
          s.pipelines ++ [{ id := freshId, orgId := orgId, name := name, createdAt := now }]) := by
  constructor
  · intro hge
    unfold createPipelineRoute withOrgAccess
    dsimp only
    rw [if_neg hO, hmem]
    dsimp only
    rw [if_pos hrole, hlim]
    dsimp only
    rw [if_pos (decide_eq_true hge)]
  · intro hlt
    have hcond : ¬ (decide ((s.getPipelines orgId).length ≥ lim.pipelines) = true) := by
      simp
      omega
    unfold createPipelineRoute withOrgAccess
    dsimp only
    rw [if_neg hO, hmem]
    dsimp only
    rw [if_pos hrole, hlim]
    dsimp only
    rw [if_neg hcond]
    exact ⟨rfl, rfl⟩

/-- Witness for C4 at the concrete store: the free-plan `org1` already
holds its single allowed pipeline, so a second creation is rejected;
with no pipelines present, creation succeeds. -/
theorem createPipeline_plan_limit_witness :
    createPipelineRoute exStore "org1" (some "u1") "Second" "p9" 3 =
        (HttpRes.err 400 "Pipeline limit reached for free plan. Upgrade to create more pipelines.",
          exStore) ∧
      (createPipelineRoute { exStore with pipelines := [] } "org1" (some "u1") "First" "p9" 3).1 =
        HttpRes.ok { id := "p9", orgId := "org1", name := "First", createdAt := 3 } := by
  constructor
  · exact (createPipeline_plan_limit exStore "org1" "u1" "Second" "p9" 3 _ _ (by decide) rfl
      (Or.inl rfl) rfl).1 (by decide)
  · exact ((createPipeline_plan_limit { exStore with pipelines := [] } "org1" "u1" "First" "p9" 3
      _ _ (by decide) rfl (Or.inl rfl) rfl).2 (by decide)).1

-- ---------------------------------------------------------------------
-- C2: the api-key plaintext appears only in the creation response
-- ---------------------------------------------------------------------

/-- `(a ++ b).data = a.data ++ b.data`. -/
theorem strData_append (a b : String) : (a ++ b).data = a.data ++ b.data := by
  cases a; cases b; rfl

/-- C2: for an admin/editor caller, the creation response carries the
plaintext `keyValue` (whose first three characters are `sk_`) next to
the stored record; the store — and hence every subsequent api-keys
read — holds only the sha256 hash and the 12-character preview, and
(because a 64-char hex digest and a 32-char preview can never equal
the 51-char secret) neither stored field is the plaintext itself. -/
theorem apiKey_secret_only_in_creation_response (s : MemStorage)
    (orgId uid name randomHex freshId : String) (now : Nat) (m : OrgMember)
    (sha256 : String → String)
    (hO : ¬ orgId = "") (hmem : s.getOrgMember orgId uid = some m)
    (hrole : m.role = "admin" ∨ m.role = "editor")
    (hsha : ∀ x, strLen (sha256 x) = 64) (hhex : strLen randomHex = 48) :
    (createApiKeyRoute s orgId (some uid) name randomHex sha256 freshId now).1 =
        HttpRes.ok
          { key :=
              { id := freshId, orgId := orgId, name := name,
                keyHash := sha256 ("sk_" ++ randomHex),
                keyPreview := jsTake ("sk_" ++ randomHex) 12 ++ "********************",
                lastUsedAt := none, createdBy := uid, createdAt := now },
            keyValue := "sk_" ++ randomHex } ∧
      jsTake ("sk_" ++ randomHex) 3 = "sk_" ∧
      (createApiKeyRoute s orgId (some uid) name randomHex sha256 freshId now).2.getApiKeys
          orgId =
        s.getApiKeys orgId ++
          [{ id := freshId, orgId := orgId, name := name,
             keyHash := sha256 ("sk_" ++ randomHex),
             keyPreview := jsTake ("sk_" ++ randomHex) 12 ++ "********************",
             lastUsedAt := none, createdBy := uid, createdAt := now }] ∧
      sha256 ("sk_" ++ randomHex) ≠ "sk_" ++ randomHex ∧
      jsTake ("sk_" ++ randomHex) 12 ++ "********************" ≠ "sk_" ++ randomHex := by
  have hkv : strLen ("sk_" ++ randomHex) = 51 := by
    show ("sk_" ++ randomHex).data.length = 51
    rw [strData_append, List.length_append]
    have h3 : ("sk_" : String).data.length = 3 := by decide
    have h48 : randomHex.data.length = 48 := hhex
    omega
  refine ⟨?_, ?_, ?_, ?_, ?_⟩
  · unfold createApiKeyRoute withOrgAccess
    dsimp only
    rw [if_neg hO, hmem]
    dsimp only
    rw [if_pos hrole]
    rfl
  · show String.mk (("sk_" ++ randomHex).data.take 3) = "sk_"
    rw [strData_append]
    have h3 : ("sk_" : String).data.length = 3 := by decide
    rw [show (3 : Nat) = ("sk_" : String).data.length from h3.symm, List.take_left]
  · have hkeys : (createApiKeyRoute s orgId (some uid) name randomHex sha256 freshId
        now).2.apiKeys = s.apiKeys ++
          [{ id := freshId, orgId := orgId, name := name,
             keyHash := sha256 ("sk_" ++ randomHex),
             keyPreview := jsTake ("sk_" ++ randomHex) 12 ++ "********************",
             lastUsedAt := none, createdBy := uid, createdAt := now }] := by
      unfold createApiKeyRoute withOrgAccess
      dsimp only
      rw [if_neg hO, hmem]
      dsimp only
      rw [if_pos hrole]
      rfl
    unfold MemStorage.getApiKeys
    rw [hkeys, List.filter_append]
    simp
  · intro hEq
    have := congrArg strLen hEq
    rw [hsha, hkv] at this
    cases this
  · intro hEq
    have hlen := congrArg strLen hEq
    have hpre : strLen (jsTake ("sk_" ++ randomHex) 12 ++ "********************") = 32 := by
      show ((jsTake ("sk_" ++ randomHex) 12 ++ "********************")).data.length = 32
      rw [strData_append, List.length_append]
      have h20 : ("********************" : String).data.length = 20 := by decide
      have ht : (jsTake ("sk_" ++ randomHex) 12).data.length = 12 := by
        show (("sk_" ++ randomHex).data.take 12).length = 12
        rw [List.length_take]
        have : ("sk_" ++ randomHex).data.length = 51 := hkv
        omega
      omega
    rw [hpre, hkv] at hlen
    cases hlen

/-- Witness for C2 at the concrete store, with a stand-in 64-char hash
function. -/
theorem apiKey_secret_only_in_creation_response_witness :
    (createApiKeyRoute exStore "org1" (some "u1") "CI"
          "0123456789abcdef0123456789abcdef0123456789abcdef"
          (fun _ => "0000000000000000000000000000000000000000000000000000000000000000")
          "k1" 4).1 =
        HttpRes.ok
          { key :=
              { id := "k1", orgId := "org1", name := "CI",
                keyHash := "0000000000000000000000000000000000000000000000000000000000000000",
                keyPreview :=
                  jsTake ("sk_" ++ "0123456789abcdef0123456789abcdef0123456789abcdef") 12 ++
                    "********************",
                lastUsedAt := none, createdBy := "u1", createdAt := 4 },
            keyValue := "sk_" ++ "0123456789abcdef0123456789abcdef0123456789abcdef" } ∧
      jsTake ("sk_" ++ "0123456789abcdef0123456789abcdef0123456789abcdef") 3 = "sk_" :=
  have h := apiKey_secret_only_in_creation_response exStore "org1" "u1" "CI"
    "0123456789abcdef0123456789abcdef0123456789abcdef" "k1" 4 _
    (fun _ => "0000000000000000000000000000000000000000000000000000000000000000")
    (by decide) rfl (Or.inl rfl)
    (fun _ => (by decide :
      strLen "0000000000000000000000000000000000000000000000000000000000000000" = 64))
    (by decide)
  ⟨h.1, h.2.1⟩

-- ---------------------------------------------------------------------
-- C8 (corrected): invite-member failure statuses
-- ---------------------------------------------------------------------

/-- C8 counterexample: inviting an email that belongs to no registered
user is rejected with 404 (`User not found`), not with 400 as the
claim states. -/
theorem invite_unknown_user_counterexample :
    (inviteMemberRoute exStore "org1" (some "u1") "ghost@x.com" "editor" 5).1 =
        HttpRes.err 404 "User not found" ∧
      ((inviteMemberRoute exStore "org1" (some "u1") "ghost@x.com" "editor" 5).1).status ≠ 400 :=
  ⟨rfl, by decide⟩

/-- C8 amended: for an admin/editor caller, inviting an unregistered
email fails with 404 and inviting an existing member fails with 400;
in both cases the store — and so the membership map — is unchanged. -/
theorem invite_member_failures_amended (s : MemStorage) (orgId uid email role : String)
    (now : Nat) (m : OrgMember)
    (hO : ¬ orgId = "") (hmem : s.getOrgMember orgId uid = some m)
    (hrole : m.role = "admin" ∨ m.role = "editor") :
    (s.getUserByEmail email = none →
      inviteMemberRoute s orgId (some uid) email role now =
        (HttpRes.err 404 "User not found", s)) ∧
    (∀ u mu, s.getUserByEmail email = some u → s.getOrgMember orgId u.id = some mu →
      inviteMemberRoute s orgId (some uid) email role now =
        (HttpRes.err 400 "User is already a member", s)) := by
  constructor
  · intro h
    unfold inviteMemberRoute withOrgAccess
    dsimp only
    rw [if_neg hO, hmem]
    dsimp only
    rw [if_pos hrole, h]
  · intro u mu hu hmu
    unfold inviteMemberRoute withOrgAccess
    dsimp only
    rw [if_neg hO, hmem]
    dsimp only
    rw [if_pos hrole, hu]
    dsimp only
    rw [hmu]

/-- Witness for the amended C8 at the concrete store: `ghost@x.com`
is unregistered, `alice@x.com` is already a member. -/
theorem invite_member_failures_amended_witness :
    inviteMemberRoute exStore "org1" (some "u1") "ghost@x.com" "editor" 5 =
        (HttpRes.err 404 "User not found", exStore) ∧
      inviteMemberRoute exStore "org1" (some "u1") "alice@x.com" "editor" 5 =
        (HttpRes.err 400 "User is already a member", exStore) := by
  constructor
  · exact (invite_member_failures_amended exStore "org1" "u1" "ghost@x.com" "editor" 5 _
      (by decide) rfl (Or.inl rfl)).1 rfl
  · exact (invite_member_failures_amended exStore "org1" "u1" "alice@x.com" "editor" 5 _
      (by decide) rfl (Or.inl rfl)).2 _ _ rfl rfl

-- ---------------------------------------------------------------------
-- C5 (corrected): moving a lead to a foreign-organization stage
-- ---------------------------------------------------------------------

/-- C5 counterexample: a `viewer` caller moving a lead to a stage of a
different organization receives 403 (the role check fires before the
stage lookup), not the 404 the claim requires for every role. -/
theorem moveLead_viewer_counterexample :
    moveLeadRoute exStore "org1" (some "u3") "l1" "s2" 5 =
        (HttpRes.err 403 "Insufficient permissions", exStore) ∧
      ((moveLeadRoute exStore "org1" (some "u3") "l1" "s2" 5).1).status ≠ 404 :=
  ⟨rfl, by decide⟩

/-- C5 amended: for an admin/editor caller, naming a destination stage
that does not resolve within the calling organization is rejected as
404 with the store (hence the lead) unchanged; and in general the
scoped store lookups only ever return entities of the requested
organization, so a wrong-organization id behaves as not-found. -/
theorem moveLead_wrong_org_amended (s : MemStorage) (orgId uid leadId stageId : String)
    (now : Nat) (m : OrgMember)
    (hO : ¬ orgId = "") (hmem : s.getOrgMember orgId uid = some m)
    (hrole : m.role = "admin" ∨ m.role = "editor")
    (hstage : s.getStage stageId orgId = none) :
    moveLeadRoute s orgId (some uid) leadId stageId now =
        (HttpRes.err 404 "Stage not found", s) ∧
      (∀ i st, s.getStage i orgId = some st → st.orgId = orgId) ∧
      (∀ i p, s.getPipeline i orgId = some p → p.orgId = orgId) ∧
      (∀ i l, s.getLead i orgId = some l → l.orgId = orgId) := by
  refine ⟨?_, fun i st h => getStage_orgId s i orgId st h,
    fun i p h => getPipeline_orgId s i orgId p h,
    fun i l h => getLead_orgId s i orgId l h⟩
  unfold moveLeadRoute withOrgAccess
  dsimp only
  rw [if_neg hO, hmem]
  dsimp only
  rw [if_pos hrole, hstage]

/-- Witness for the amended C5 at the concrete store: admin `u1` of
`org1` targets stage `s2`, which belongs to `org2`. -/
theorem moveLead_wrong_org_amended_witness :
    moveLeadRoute exStore "org1" (some "u1") "l1" "s2" 5 =
      (HttpRes.err 404 "Stage not found", exStore) :=
  (moveLead_wrong_org_amended exStore "org1" "u1" "l1" "s2" 5 _ (by decide) rfl
    (Or.inl rfl) rfl).1

-- ---------------------------------------------------------------------
-- C3 (corrected): mention resolution
-- ---------------------------------------------------------------------

/-- C3 counterexample: in an organization with a member named
"Alice Smith", the body `great work @alice` resolves no mention at
all — the token `alice` is compared for equality against the stripped
name `alicesmith`, and does not match — contradicting the claim that
it resolves to that member's id. -/
theorem mention_alice_counterexample :
    resolveMentions exStore "org1" "u1" "great work @alice" = [] ∧
      resolveMentions exStore "org1" "u1" "great work @alice" ≠ ["u2"] :=
  ⟨by decide, by decide⟩

/-- C3 amended: every resolved mention comes from a token whose
lower-casing equals a member's lower-cased whitespace-stripped display
name exactly, and is never the author (even on self-mention); in
particular `@AliceSmith` (not `@alice`) resolves to the id of the
member named "Alice Smith", and resolves to nothing when that member
is the author. -/
theorem mention_resolution_amended (s : MemStorage) (orgId authorId body : String) :
    (∀ uid ∈ resolveMentions s orgId authorId body,
        ¬ uid = authorId ∧
          ∃ tok ∈ extractMentions body, ∃ mw ∈ s.getOrgMembers orgId,
            normalizeName mw.userInfoName = strToLower tok ∧ mw.userInfoId = uid) ∧
      resolveMentions exStore "org1" "u1" "great work @AliceSmith" = ["u2"] ∧
      resolveMentions exStore "org1" "u2" "review @AliceSmith please" = [] := by
  refine ⟨?_, by decide, by decide⟩
  intro uid huid
  unfold resolveMentions at huid
  by_cases hlen : (extractMentions body).length > 0
  · rw [if_pos hlen] at huid
    obtain ⟨tok, htok, hres⟩ := List.mem_filterMap.mp huid
    revert hres
    cases hfind : ((s.getOrgMembers orgId).reverse.find?
        (fun m => normalizeName m.userInfoName = strToLower tok)) with
    | none =>
      intro hres
      have hres' : (none : Option String) = some uid := hres
      cases hres'
    | some mw =>
      intro hres
      have hres' : (if mw.userInfoId ≠ "" ∧ mw.userInfoId ≠ authorId then
          some mw.userInfoId else none) = some uid := hres
      by_cases hcond : mw.userInfoId ≠ "" ∧ mw.userInfoId ≠ authorId
      · rw [if_pos hcond] at hres'
        injection hres' with h2
        subst h2
        refine ⟨hcond.2, tok, htok, mw,
          List.mem_reverse.mp (List.mem_of_find?_eq_some hfind), ?_, rfl⟩
        simpa using List.find?_some hfind
      · rw [if_neg hcond] at hres'
        cases hres'
  · rw [if_neg hlen] at huid
    cases huid

/-- Witness for the amended C3: the resolved id differs from the
author. -/
theorem mention_resolution_amended_witness : ¬ ("u2" : String) = "u1" :=
  ((mention_resolution_amended exStore "org1" "u1" "great work @AliceSmith").1 "u2"
    (by decide)).1

-- ---------------------------------------------------------------------
-- C9: reorderStages is not atomic
-- ---------------------------------------------------------------------

/-- Elements with the same key are equal in a list whose keys are
nodup. -/
theorem nodup_key_inj {α : Type} (key : α → String) (l : List α)
    (h : (l.map key).Nodup) {a b : α} (ha : a ∈ l) (hb : b ∈ l) (hk : key a = key b) :
    a = b :=
  List.inj_on_of_nodup_map h ha hb hk

/-- Inversion of a successful scoped stage lookup. -/
theorem getStage_inv (s : MemStorage) (id orgId : String) (st : Stage)
    (h : s.getStage id orgId = some st) :
    s.stages.find? (fun x => x.id = id) = some st ∧ st.id = id ∧ st.orgId = orgId := by
  have h' := h
  unfold MemStorage.getStage at h'
  cases hf : s.stages.find? (fun x => x.id = id) with
  | none => rw [hf] at h'; cases h'
  | some x =>
    rw [hf] at h'
    dsimp only at h'
    by_cases hx : x.orgId = orgId
    · rw [if_pos hx] at h'
      injection h' with h2
      subst h2
      exact ⟨rfl, by simpa using List.find?_some hf, hx⟩
    · rw [if_neg hx] at h'; cases h'

/-- A stage present in a nodup-id store is what the scoped lookup
returns. -/
theorem getStage_some_of_mem (s : MemStorage) (id orgId : String) (st : Stage)
    (hnodup : (s.stages.map Stage.id).Nodup)
    (hmem : st ∈ s.stages) (hid : st.id = id) (horg : st.orgId = orgId) :
    s.getStage id orgId = some st := by
  have hfind : s.stages.find? (fun x => x.id = id) = some st := by
    cases hf : s.stages.find? (fun x => x.id = id) with
    | none =>
      exact absurd (by simpa using hid) (List.find?_eq_none.mp hf st hmem)
    | some x =>
      have hx : x.id = id := by simpa using List.find?_some hf
      have : x = st :=
        nodup_key_inj Stage.id s.stages hnodup (List.mem_of_find?_eq_some hf) hmem
          (by rw [hx, hid])
      rw [this]
  unfold MemStorage.getStage
  rw [hfind]
  dsimp only
  rw [if_pos horg]

/-- `find?` over an id-preserving replace-at-id map finds the
replacement. -/
theorem find?_map_ite {l : List Stage} {id : String} {u : Stage} (hu : u.id = id)
    {x0 : Stage} (hf : l.find? (fun x => x.id = id) = some x0) :
    (l.map (fun x => if x.id = id then u else x)).find? (fun x => x.id = id) = some u := by
  induction l with
  | nil => cases hf
  | cons y rest ih =>
    by_cases hy : y.id = id
    · rw [List.map_cons, if_pos hy]
      exact List.find?_cons_of_pos _ (by simpa using hu)
    · rw [List.find?_cons_of_neg _ (by simpa using hy)] at hf
      rw [List.map_cons, if_neg hy, List.find?_cons_of_neg _ (by simpa using hy)]
      exact ih hf

/-- `find?` for a different id is untouched by a replace-at-id map. -/
theorem find?_map_ite_ne {l : List Stage} {id1 id0 : String} {u : Stage}
    (hne : ¬ id0 = id1) (hu : u.id = id1) :
    (l.map (fun x => if x.id = id1 then u else x)).find? (fun x => x.id = id0) =
      l.find? (fun x => x.id = id0) := by
  induction l with
  | nil => rfl
  | cons y rest ih =>
    by_cases hy : y.id = id1
    · have h1 : ¬ u.id = id0 := by rw [hu]; intro h; exact hne h.symm
      have h2 : ¬ y.id = id0 := by rw [hy]; intro h; exact hne h.symm
      rw [List.map_cons, if_pos hy, List.find?_cons_of_neg _ (by simpa using h1),
        List.find?_cons_of_neg _ (by simpa using h2)]
      exact ih
    · rw [List.map_cons, if_neg hy]
      by_cases h0 : y.id = id0
      · rw [List.find?_cons_of_pos _ (by simpa using h0),
          List.find?_cons_of_pos _ (by simpa using h0)]
      · rw [List.find?_cons_of_neg _ (by simpa using h0),
          List.find?_cons_of_neg _ (by simpa using h0)]
        exact ih

/-- The replace-at-id map preserves the list of stage ids. -/
theorem map_ite_ids (l : List Stage) (id : String) (u : Stage) (hu : u.id = id) :
    (l.map (fun x => if x.id = id then u else x)).map Stage.id = l.map Stage.id := by
  rw [List.map_map]
  apply List.map_congr_left
  intro x hx
  by_cases h : x.id = id
  · show (if x.id = id then u else x).id = x.id
    rw [if_pos h, hu, h]
  · show (if x.id = id then u else x).id = x.id
    rw [if_neg h]

/-- All the facts about a successful `updateStage` that the
`reorderStages` analysis needs. -/
theorem updateStage_ok_facts (s : MemStorage) (id orgId : String) (patch : StagePatch)
    (st : Stage) (hnodup : (s.stages.map Stage.id).Nodup)
    (h : s.getStage id orgId = some st) :
    ∃ s2, s.updateStage id orgId patch = Except.ok (applyStagePatch st patch, s2) ∧
      s2.stages.map Stage.id = s.stages.map Stage.id ∧
      s2.getStage id orgId = some (applyStagePatch st patch) ∧
      (∀ i, ¬ i = id → s2.getStage i orgId = s.getStage i orgId) ∧
      (∀ x ∈ s2.stages, ∃ y ∈ s.stages, x.id = y.id ∧ x.orgId = y.orgId) ∧
      (∀ y ∈ s.stages, ∃ x ∈ s2.stages, x.id = y.id ∧ x.orgId = y.orgId) := by
  obtain ⟨hfind, hid, horg⟩ := getStage_inv s id orgId st h
  have hu : (applyStagePatch st patch).id = id := hid
  have huorg : (applyStagePatch st patch).orgId = st.orgId := rfl
  refine ⟨{ s with stages := s.stages.map (fun x =>
      if x.id = id then applyStagePatch st patch else x) }, ?_, ?_, ?_, ?_, ?_, ?_⟩
  · unfold MemStorage.updateStage
    rw [h]
  · exact map_ite_ids s.stages id (applyStagePatch st patch) hu
  · show MemStorage.getStage _ id orgId = _
    unfold MemStorage.getStage
    rw [find?_map_ite hu hfind]
    dsimp only
    rw [if_pos (by rw [huorg]; exact horg)]
  · intro i hi
    show MemStorage.getStage _ i orgId = _
    unfold MemStorage.getStage
    rw [find?_map_ite_ne hi hu]
  · intro x hx
    obtain ⟨y, hy, hxy⟩ := List.mem_map.mp hx
    by_cases h1 : y.id = id
    · have hyst : y = st := nodup_key_inj Stage.id s.stages hnodup hy
        (List.mem_of_find?_eq_some hfind) (by rw [h1, hid])
      refine ⟨y, hy, ?_, ?_⟩
      · rw [← hxy, if_pos h1, hu, h1]
      · rw [← hxy, if_pos h1, huorg, hyst]
    · exact ⟨y, hy, by rw [← hxy, if_neg h1], by rw [← hxy, if_neg h1]⟩
  · intro y hy
    by_cases h1 : y.id = id
    · have hyst : y = st := nodup_key_inj Stage.id s.stages hnodup hy
        (List.mem_of_find?_eq_some hfind) (by rw [h1, hid])
      refine ⟨applyStagePatch st patch, ?_, ?_, ?_⟩
      · exact List.mem_map.mpr ⟨y, hy, by rw [if_pos h1]⟩
      · rw [hu, h1]
      · rw [huorg, hyst]
    · exact ⟨y, List.mem_map.mpr ⟨y, hy, by rw [if_neg h1]⟩, rfl, rfl⟩

/-- C9: `reorderStages` is not atomic — with the entries split as
`pre ++ (badId, v) :: rest` where every entry of `pre` resolves to a
stage of the organization and `badId` does not, the call returns the
`Stage not found` error while the new `order` values of all `pre`
entries remain persisted in the store (and stages not named in `pre`
are untouched). -/
theorem reorderStages_not_atomic (s : MemStorage) (pipelineId orgId : String)
    (pre : List (String × Int)) (badId : String) (v : Int) (rest : List (String × Int))
    (hnodupS : (s.stages.map Stage.id).Nodup)
    (hnodupPre : (pre.map Prod.fst).Nodup)
    (hpre : ∀ e ∈ pre, ∃ st ∈ s.stages, st.id = e.fst ∧ st.orgId = orgId)
    (hbad : ∀ st ∈ s.stages, st.id = badId → st.orgId ≠ orgId) :
    (s.reorderStages pipelineId orgId (pre ++ (badId, v) :: rest)).1 =
        Except.error "Stage not found" ∧
      (∀ i, i ∉ pre.map Prod.fst →
        ((s.reorderStages pipelineId orgId (pre ++ (badId, v) :: rest)).2).getStage i orgId =
          s.getStage i orgId) ∧
      ∀ e ∈ pre, ∃ st,
        ((s.reorderStages pipelineId orgId (pre ++ (badId, v) :: rest)).2).getStage
            e.fst orgId = some st ∧ st.order = e.snd := by
  unfold MemStorage.reorderStages
  induction pre generalizing s with
  | nil =>
    have hnone : s.getStage badId orgId = none := getStage_eq_none s badId orgId hbad
    have hstop : reorderGo orgId s ([] ++ (badId, v) :: rest) =
        (Except.error "Stage not found", s) := by
      show reorderGo orgId s ((badId, v) :: rest) = _
      unfold reorderGo
      unfold MemStorage.updateStage
      rw [hnone]
    refine ⟨by rw [hstop], fun i _ => by rw [hstop], ?_⟩
    intro e he; cases he
  | cons e0 pre' ih =>
    obtain ⟨id0, v0⟩ := e0
    obtain ⟨st0, hst0mem, hst0id, hst0org⟩ := hpre (id0, v0) (List.mem_cons_self _ _)
    have hg : s.getStage id0 orgId = some st0 :=
      getStage_some_of_mem s id0 orgId st0 hnodupS hst0mem hst0id hst0org
    obtain ⟨s2, hup, hids, hgot, hpres, hfwd, hbwd⟩ :=
      updateStage_ok_facts s id0 orgId { name := none, order := some v0 } st0 hnodupS hg
    have hnodupS2 : (s2.stages.map Stage.id).Nodup := by rw [hids]; exact hnodupS
    have hnodupPre' : (pre'.map Prod.fst).Nodup := by
      rw [List.map_cons] at hnodupPre
      exact (List.nodup_cons.mp hnodupPre).2
    have hid0notin : id0 ∉ pre'.map Prod.fst := by
      rw [List.map_cons] at hnodupPre
      exact (List.nodup_cons.mp hnodupPre).1
    have hpre' : ∀ e ∈ pre', ∃ st ∈ s2.stages, st.id = e.fst ∧ st.orgId = orgId := by
      intro e he
      obtain ⟨st, hstmem, hstid, hstorg⟩ := hpre e (List.mem_cons_of_mem _ he)
      obtain ⟨x, hxmem, hxid, hxorg⟩ := hbwd st hstmem
      exact ⟨x, hxmem, by rw [hxid, hstid], by rw [hxorg, hstorg]⟩
    have hbad2 : ∀ st ∈ s2.stages, st.id = badId → st.orgId ≠ orgId := by
      intro st hstmem hstid
      obtain ⟨y, hymem, hyid, hyorg⟩ := hfwd st hstmem
      rw [hyorg]
      exact hbad y hymem (by rw [← hyid, hstid])
    have hstep : reorderGo orgId s (((id0, v0) :: pre') ++ (badId, v) :: rest) =
        reorderGo orgId s2 (pre' ++ (badId, v) :: rest) := by
      show reorderGo orgId s ((id0, v0) :: (pre' ++ (badId, v) :: rest)) = _
      rw [reorderGo, hup]
    obtain ⟨ih1, ihmid, ih2⟩ := ih s2 hnodupS2 hnodupPre' hpre' hbad2
    rw [hstep]
    refine ⟨ih1, ?_, ?_⟩
    · intro i hi
      have hine : ¬ i = id0 := by
        intro h
        exact hi (by rw [List.map_cons, h]; exact List.mem_cons_self _ _)
      have hirest : i ∉ pre'.map Prod.fst := by
        intro h
        exact hi (by rw [List.map_cons]; exact List.mem_cons_of_mem _ h)
      rw [ihmid i hirest]
      exact hpres i hine
    · intro e he
      rcases List.mem_cons.mp he with he0 | he'
      · cases he0
        refine ⟨applyStagePatch st0 { name := none, order := some v0 }, ?_, rfl⟩
        rw [ihmid id0 hid0notin, hgot]
      · exact ih2 e he'

/-- Witness for C9 at the concrete store: entry `("s1", 7)` is applied
and persists even though the following entry `("zz", 9)` throws. -/
theorem reorderStages_not_atomic_witness :
    (exStore.reorderStages "p1" "org1" [("s1", 7), ("zz", 9)]).1 =
        Except.error "Stage not found" ∧
      ∃ st, ((exStore.reorderStages "p1" "org1" [("s1", 7), ("zz", 9)]).2).getStage "s1" "org1" =
          some st ∧ st.order = 7 := by
  have h := reorderStages_not_atomic exStore "p1" "org1" [("s1", 7)] "zz" 9 []
    (by decide) (by decide) (by decide) (by decide)
  exact ⟨h.1, h.2.2 ("s1", 7) (by decide)⟩

-- ---------------------------------------------------------------------
-- C1: cascade delete — infrastructure
-- ---------------------------------------------------------------------

/-- `deleteLeadComment` only ever filters the comment map. -/
theorem leadCommentsRemove_sublist (l : List LeadComment) (id orgId : String) :
    (leadCommentsRemove l id orgId).Sublist l := by
  unfold leadCommentsRemove
  cases hf : l.find? (fun c => c.id = id) with
  | none => exact List.Sublist.refl l
  | some c =>
    dsimp only
    by_cases h : c.orgId = orgId
    · rw [if_pos h]; exact List.filter_sublist l
    · rw [if_neg h]

/-- A field that every step of a fold leaves unchanged is unchanged by
the whole fold. -/
theorem foldl_field_eq {α β : Type} (g : MemStorage → β) (f : MemStorage → α → MemStorage)
    (h : ∀ s x, g (f s x) = g s) :
    ∀ (xs : List α) (s : MemStorage), g (xs.foldl f s) = g s := by
  intro xs
  induction xs with
  | nil => intro s; rfl
  | cons x rest ih =>
    intro s
    rw [List.foldl_cons, ih, h]

/-- A list field that every step of a fold only shrinks is a sublist
of the original after the whole fold. -/
theorem foldl_field_sublist {α β : Type} (g : MemStorage → List β)
    (f : MemStorage → α → MemStorage) (h : ∀ s x, (g (f s x)).Sublist (g s)) :
    ∀ (xs : List α) (s : MemStorage), (g (xs.foldl f s)).Sublist (g s) := by
  intro xs
  induction xs with
  | nil => intro s; exact List.Sublist.refl _
  | cons x rest ih =>
    intro s
    rw [List.foldl_cons]
    exact (ih (f s x)).trans (h s x)

/-- After `deleteLeadComment t orgId`, no comment with id `t` remains,
provided every comment with that id belongs to the organization. -/
theorem dlc_removes_target (s : MemStorage) (t orgId : String)
    (horg : ∀ x ∈ s.leadComments, x.id = t → x.orgId = orgId) :
    ∀ x ∈ (s.deleteLeadComment t orgId).leadComments, ¬ x.id = t := by
  show ∀ x ∈ leadCommentsRemove s.leadComments t orgId, ¬ x.id = t
  unfold leadCommentsRemove
  cases hf : s.leadComments.find? (fun c => c.id = t) with
  | none =>
    intro x hx hxt
    exact (List.find?_eq_none.mp hf x hx) (by simpa using hxt)
  | some c =>
    dsimp only
    have hct : c.id = t := by simpa using List.find?_some hf
    rw [if_pos (horg c (List.mem_of_find?_eq_some hf) hct)]
    intro x hx
    have h2 := (List.mem_filter.mp hx).2
    simpa using h2

/-- Folding `deleteLeadComment` over a batch that contains the target
id removes every comment with that id. -/
theorem foldl_dlc_removes (orgId t : String) :
    ∀ (cs : List CommentWithUser) (s : MemStorage),
      (∀ x ∈ s.leadComments, x.id = t → x.orgId = orgId) →
      (∃ cw ∈ cs, cw.comment.id = t) →
      ∀ x ∈ (cs.foldl (fun (acc : MemStorage) (cw : CommentWithUser) => acc.deleteLeadComment cw.comment.id orgId)
          s).leadComments, ¬ x.id = t := by
  intro cs
  induction cs with
  | nil =>
    intro s _ hex
    obtain ⟨cw, hcw, _⟩ := hex
    cases hcw
  | cons cw0 rest ih =>
    intro s horg hex
    rw [List.foldl_cons]
    by_cases h0 : cw0.comment.id = t
    · rw [h0]
      have habs := dlc_removes_target s t orgId horg
      intro x hx hxt
      have hsub := foldl_field_sublist MemStorage.leadComments
        (fun (acc : MemStorage) (cw : CommentWithUser) => acc.deleteLeadComment cw.comment.id orgId)
        (fun (s2 : MemStorage) (cw : CommentWithUser) => leadCommentsRemove_sublist s2.leadComments cw.comment.id orgId)
        rest (s.deleteLeadComment t orgId)
      exact habs x (hsub.subset hx) hxt
    · apply ih
      · intro x hx hxt
        exact horg x
          ((leadCommentsRemove_sublist s.leadComments cw0.comment.id orgId).subset hx) hxt
      · obtain ⟨cw, hcw, hcwt⟩ := hex
        rcases List.mem_cons.mp hcw with rfl | h
        · exact absurd hcwt h0
        · exact ⟨cw, h, hcwt⟩

/-- The user join never changes the comment itself. -/
theorem commentJoinUser_comment (s : MemStorage) (c : LeadComment) :
    (commentJoinUser s c).comment = c := by
  unfold commentJoinUser
  cases s.users.find? (fun u => u.id = c.userId) with
  | none => rfl
  | some u => rfl

/-- Inversion of a successful scoped lead lookup. -/
theorem getLead_inv (s : MemStorage) (id orgId : String) (l : Lead)
    (h : s.getLead id orgId = some l) :
    s.leads.find? (fun x => x.id = id) = some l ∧ l.id = id ∧ l.orgId = orgId := by
  have h' := h
  unfold MemStorage.getLead at h'
  cases hf : s.leads.find? (fun x => x.id = id) with
  | none => rw [hf] at h'; cases h'
  | some x =>
    rw [hf] at h'
    dsimp only at h'
    by_cases hx : x.orgId = orgId
    · rw [if_pos hx] at h'
      injection h' with h2
      subst h2
      exact ⟨rfl, by simpa using List.find?_some hf, hx⟩
    · rw [if_neg hx] at h'; cases h'

/-- A scoped lead lookup succeeds when a lead with the id is present
and every lead with that id belongs to the organization. -/
theorem getLead_isSome (s : MemStorage) (id orgId : String)
    (horg : ∀ x ∈ s.leads, x.id = id → x.orgId = orgId)
    (hpres : ∃ x ∈ s.leads, x.id = id) :
    ∃ l, s.getLead id orgId = some l := by
  obtain ⟨l0, hl0, hl0id⟩ := hpres
  unfold MemStorage.getLead
  cases hf : s.leads.find? (fun x => x.id = id) with
  | none => exact absurd (by simpa using hl0id) (List.find?_eq_none.mp hf l0 hl0)
  | some y =>
    dsimp only
    have hyid : y.id = id := by simpa using List.find?_some hf
    rw [if_pos (horg y (List.mem_of_find?_eq_some hf) hyid)]
    exact ⟨y, rfl⟩

/-- `deleteLead` leaves the stage map unchanged. -/
theorem deleteLead_stages (s : MemStorage) (id orgId : String) :
    (s.deleteLead id orgId).stages = s.stages := by
  unfold MemStorage.deleteLead
  cases hf : s.getLead id orgId with
  | none => rfl
  | some l =>
    dsimp only
    exact foldl_field_eq MemStorage.stages
      (fun (acc : MemStorage) (cw : CommentWithUser) => acc.deleteLeadComment cw.comment.id orgId) (fun _ _ => rfl) _ s

/-- `deleteLead` leaves the pipeline map unchanged. -/
theorem deleteLead_pipelines (s : MemStorage) (id orgId : String) :
    (s.deleteLead id orgId).pipelines = s.pipelines := by
  unfold MemStorage.deleteLead
  cases hf : s.getLead id orgId with
  | none => rfl
  | some l =>
    dsimp only
    exact foldl_field_eq MemStorage.pipelines
      (fun (acc : MemStorage) (cw : CommentWithUser) => acc.deleteLeadComment cw.comment.id orgId) (fun _ _ => rfl) _ s

/-- `deleteLead` only ever shrinks the lead map. -/
theorem deleteLead_leads_sublist (s : MemStorage) (id orgId : String) :
    (s.deleteLead id orgId).leads.Sublist s.leads := by
  unfold MemStorage.deleteLead
  cases hf : s.getLead id orgId with
  | none => exact List.Sublist.refl _
  | some l =>
    dsimp only
    have heq : ((s.getLeadComments id orgId).foldl
        (fun (acc : MemStorage) (cw : CommentWithUser) =>
          acc.deleteLeadComment cw.comment.id orgId) s).leads = s.leads :=
      foldl_field_eq MemStorage.leads
        (fun (acc : MemStorage) (cw : CommentWithUser) =>
          acc.deleteLeadComment cw.comment.id orgId) (fun _ _ => rfl) _ s
    rw [heq]
    exact List.filter_sublist s.leads

/-- `deleteLead` only ever shrinks the comment map. -/
theorem deleteLead_comments_sublist (s : MemStorage) (id orgId : String) :
    (s.deleteLead id orgId).leadComments.Sublist s.leadComments := by
  unfold MemStorage.deleteLead
  cases hf : s.getLead id orgId with
  | none => exact List.Sublist.refl _
  | some l =>
    dsimp only
    exact foldl_field_sublist MemStorage.leadComments
      (fun (acc : MemStorage) (cw : CommentWithUser) => acc.deleteLeadComment cw.comment.id orgId)
      (fun (s2 : MemStorage) (cw : CommentWithUser) => leadCommentsRemove_sublist s2.leadComments cw.comment.id orgId) _ s

/-- After `deleteLead lid orgId`, no lead with id `lid` remains,
provided every lead with that id belongs to the organization. -/
theorem deleteLead_removes_lead (s : MemStorage) (lid orgId : String)
    (horg : ∀ x ∈ s.leads, x.id = lid → x.orgId = orgId) :
    ∀ x ∈ (s.deleteLead lid orgId).leads, ¬ x.id = lid := by
  unfold MemStorage.deleteLead
  cases hf : s.getLead lid orgId with
  | none =>
    intro x hx hxt
    unfold MemStorage.getLead at hf
    cases hf2 : s.leads.find? (fun l => l.id = lid) with
    | none => exact (List.find?_eq_none.mp hf2 x hx) (by simpa using hxt)
    | some y =>
      rw [hf2] at hf
      dsimp only at hf
      have hyid : y.id = lid := by simpa using List.find?_some hf2
      rw [if_pos (horg y (List.mem_of_find?_eq_some hf2) hyid)] at hf
      cases hf
  | some l =>
    dsimp only
    intro x hx hxt
    have h2 := (List.mem_filter.mp hx).2
    have h3 : ¬ x.id = lid := by simpa using h2
    exact h3 hxt

/-- After `deleteLead lid orgId`, no comment with id `t` remains, when
the lead `lid` is present (cascade), every lead with id `lid` and
every comment with id `t` belong to the organization, and every
comment with id `t` is a comment of lead `lid`. -/
theorem deleteLead_removes_comments (s : MemStorage) (lid t orgId : String)
    (horgL : ∀ x ∈ s.leads, x.id = lid → x.orgId = orgId)
    (hpres : ∃ x ∈ s.leads, x.id = lid)
    (horgC : ∀ x ∈ s.leadComments, x.id = t → x.orgId = orgId)
    (hCl : ∀ x ∈ s.leadComments, x.id = t → x.leadId = lid) :
    ∀ x ∈ (s.deleteLead lid orgId).leadComments, ¬ x.id = t := by
  obtain ⟨l', hl'⟩ := getLead_isSome s lid orgId horgL hpres
  unfold MemStorage.deleteLead
  rw [hl']
  dsimp only
  by_cases hex : ∃ c ∈ s.leadComments, c.id = t
  · obtain ⟨c, hc, hct⟩ := hex
    have hcl : c.leadId = lid := hCl c hc hct
    have hco : c.orgId = orgId := horgC c hc hct
    have hcw : ∃ cw ∈ s.getLeadComments lid orgId, cw.comment.id = t := by
      unfold MemStorage.getLeadComments
      refine ⟨commentJoinUser s c, List.mem_map.mpr ⟨c, ?_, rfl⟩, ?_⟩
      · exact (List.perm_insertionSort _ _).mem_iff.mpr
          (List.mem_filter.mpr ⟨hc, by simp [hcl, hco]⟩)
      · rw [commentJoinUser_comment]
        exact hct
    exact foldl_dlc_removes orgId t _ s horgC hcw
  · intro x hx hxt
    have hsub := foldl_field_sublist MemStorage.leadComments
      (fun (acc : MemStorage) (cw : CommentWithUser) =>
        acc.deleteLeadComment cw.comment.id orgId)
      (fun (s2 : MemStorage) (cw : CommentWithUser) =>
        leadCommentsRemove_sublist s2.leadComments cw.comment.id orgId)
      (s.getLeadComments lid orgId) s
    exact hex ⟨x, hsub.subset hx, hxt⟩

/-- A lead with a different id survives `deleteLead`. -/
theorem deleteLead_preserves_lead (s : MemStorage) (lid' orgId : String) (l : Lead)
    (hl : l ∈ s.leads) (hne : ¬ l.id = lid') :
    l ∈ (s.deleteLead lid' orgId).leads := by
  unfold MemStorage.deleteLead
  cases hf : s.getLead lid' orgId with
  | none => exact hl
  | some _ =>
    dsimp only
    have heq : ((s.getLeadComments lid' orgId).foldl
        (fun (acc : MemStorage) (cw : CommentWithUser) =>
          acc.deleteLeadComment cw.comment.id orgId) s).leads = s.leads :=
      foldl_field_eq MemStorage.leads
        (fun (acc : MemStorage) (cw : CommentWithUser) =>
          acc.deleteLeadComment cw.comment.id orgId) (fun _ _ => rfl) _ s
    rw [heq]
    exact List.mem_filter.mpr ⟨hl, by simpa using hne⟩

/-- Folding `deleteLead` over a batch that contains the target id
removes every lead with that id. -/
theorem foldl_dl_removes_lead (orgId tid : String) :
    ∀ (ls : List Lead) (s : MemStorage),
      (∀ x ∈ s.leads, x.id = tid → x.orgId = orgId) →
      (∃ y ∈ ls, y.id = tid) →
      ∀ x ∈ (ls.foldl (fun (acc : MemStorage) (l : Lead) =>
          acc.deleteLead l.id orgId) s).leads, ¬ x.id = tid := by
  intro ls
  induction ls with
  | nil =>
    intro s _ hex
    obtain ⟨y, hy, _⟩ := hex
    cases hy
  | cons l0 rest ih =>
    intro s horg hex
    rw [List.foldl_cons]
    by_cases h0 : l0.id = tid
    · rw [h0]
      have habs := deleteLead_removes_lead s tid orgId horg
      intro x hx hxt
      have hsub := foldl_field_sublist MemStorage.leads
        (fun (acc : MemStorage) (l : Lead) => acc.deleteLead l.id orgId)
        (fun (s2 : MemStorage) (l : Lead) => deleteLead_leads_sublist s2 l.id orgId)
        rest (s.deleteLead tid orgId)
      exact habs x (hsub.subset hx) hxt
    · apply ih
      · intro x hx hxt
        exact horg x ((deleteLead_leads_sublist s l0.id orgId).subset hx) hxt
      · obtain ⟨y, hy, hyt⟩ := hex
        rcases List.mem_cons.mp hy with rfl | h
        · exact absurd hyt h0
        · exact ⟨y, h, hyt⟩

/-- Folding `deleteLead` over a batch that contains the lead `lid`
removes every comment with id `t` of that lead. -/
theorem foldl_dl_removes_comment (orgId lid t : String) :
    ∀ (ls : List Lead) (s : MemStorage),
      (∀ x ∈ s.leads, x.id = lid → x.orgId = orgId) →
      (∀ x ∈ s.leadComments, x.id = t → x.orgId = orgId) →
      (∀ x ∈ s.leadComments, x.id = t → x.leadId = lid) →
      (∃ y ∈ ls, y.id = lid) →
      (∃ x ∈ s.leads, x.id = lid) →
      ∀ x ∈ (ls.foldl (fun (acc : MemStorage) (l : Lead) =>
          acc.deleteLead l.id orgId) s).leadComments, ¬ x.id = t := by
  intro ls
  induction ls with
  | nil =>
    intro s _ _ _ hex _
    obtain ⟨y, hy, _⟩ := hex
    cases hy
  | cons l0 rest ih =>
    intro s horgL horgC hCl hex hpres
    rw [List.foldl_cons]
    by_cases h0 : l0.id = lid
    · rw [h0]
      have habs := deleteLead_removes_comments s lid t orgId horgL hpres horgC hCl
      intro x hx hxt
      have hsub := foldl_field_sublist MemStorage.leadComments
        (fun (acc : MemStorage) (l : Lead) => acc.deleteLead l.id orgId)
        (fun (s2 : MemStorage) (l : Lead) => deleteLead_comments_sublist s2 l.id orgId)
        rest (s.deleteLead lid orgId)
      exact habs x (hsub.subset hx) hxt
    · apply ih
      · intro x hx hxt
        exact horgL x ((deleteLead_leads_sublist s l0.id orgId).subset hx) hxt
      · intro x hx hxt
        exact horgC x ((deleteLead_comments_sublist s l0.id orgId).subset hx) hxt
      · intro x hx hxt
        exact hCl x ((deleteLead_comments_sublist s l0.id orgId).subset hx) hxt
      · obtain ⟨y, hy, hyt⟩ := hex
        rcases List.mem_cons.mp hy with rfl | h
        · exact absurd hyt h0
        · exact ⟨y, h, hyt⟩
      · obtain ⟨x, hxmem, hxid⟩ := hpres
        exact ⟨x, deleteLead_preserves_lead s l0.id orgId x hxmem
          (by rw [hxid]; intro h; exact h0 h.symm), hxid⟩

/-- A scoped stage lookup succeeds when a stage with the id is present
and every stage with that id belongs to the organization. -/
theorem getStage_isSome (s : MemStorage) (id orgId : String)
    (horg : ∀ x ∈ s.stages, x.id = id → x.orgId = orgId)
    (hpres : ∃ x ∈ s.stages, x.id = id) :
    ∃ st, s.getStage id orgId = some st := by
  obtain ⟨st0, hst0, hst0id⟩ := hpres
  unfold MemStorage.getStage
  cases hf : s.stages.find? (fun x => x.id = id) with
  | none => exact absurd (by simpa using hst0id) (List.find?_eq_none.mp hf st0 hst0)
  | some y =>
    dsimp only
    have hyid : y.id = id := by simpa using List.find?_some hf
    rw [if_pos (horg y (List.mem_of_find?_eq_some hf) hyid)]
    exact ⟨y, rfl⟩

/-- `deleteStage` leaves the pipeline map unchanged. -/
theorem deleteStage_pipelines (s : MemStorage) (id orgId : String) :
    (s.deleteStage id orgId).pipelines = s.pipelines := by
  unfold MemStorage.deleteStage
  cases hf : s.getStage id orgId with
  | none => rfl
  | some _ =>
    dsimp only
    exact foldl_field_eq MemStorage.pipelines
      (fun (acc : MemStorage) (l : Lead) => acc.deleteLead l.id orgId)
      (fun s2 l => deleteLead_pipelines s2 l.id orgId) _ s

/-- `deleteStage` only ever shrinks the stage map. -/
theorem deleteStage_stages_sublist (s : MemStorage) (id orgId : String) :
    (s.deleteStage id orgId).stages.Sublist s.stages := by
  unfold MemStorage.deleteStage
  cases hf : s.getStage id orgId with
  | none => exact List.Sublist.refl _
  | some _ =>
    dsimp only
    have heq : ((s.getLeads id orgId).foldl
        (fun (acc : MemStorage) (l : Lead) => acc.deleteLead l.id orgId) s).stages =
          s.stages :=
      foldl_field_eq MemStorage.stages
        (fun (acc : MemStorage) (l : Lead) => acc.deleteLead l.id orgId)
        (fun s2 l => deleteLead_stages s2 l.id orgId) _ s
    rw [heq]
    exact List.filter_sublist s.stages

/-- `deleteStage` only ever shrinks the lead map. -/
theorem deleteStage_leads_sublist (s : MemStorage) (id orgId : String) :
    (s.deleteStage id orgId).leads.Sublist s.leads := by
  unfold MemStorage.deleteStage
  cases hf : s.getStage id orgId with
  | none => exact List.Sublist.refl _
  | some _ =>
    dsimp only
    exact foldl_field_sublist MemStorage.leads
      (fun (acc : MemStorage) (l : Lead) => acc.deleteLead l.id orgId)
      (fun s2 l => deleteLead_leads_sublist s2 l.id orgId) _ s

/-- `deleteStage` only ever shrinks the comment map. -/
theorem deleteStage_comments_sublist (s : MemStorage) (id orgId : String) :
    (s.deleteStage id orgId).leadComments.Sublist s.leadComments := by
  unfold MemStorage.deleteStage
  cases hf : s.getStage id orgId with
  | none => exact List.Sublist.refl _
  | some _ =>
    dsimp only
    exact foldl_field_sublist MemStorage.leadComments
      (fun (acc : MemStorage) (l : Lead) => acc.deleteLead l.id orgId)
      (fun s2 l => deleteLead_comments_sublist s2 l.id orgId) _ s

/-- After `deleteStage stid orgId`, no stage with id `stid` remains,
provided every stage with that id belongs to the organization. -/
theorem deleteStage_removes_stage (s : MemStorage) (stid orgId : String)
    (horg : ∀ x ∈ s.stages, x.id = stid → x.orgId = orgId) :
    ∀ x ∈ (s.deleteStage stid orgId).stages, ¬ x.id = stid := by
  unfold MemStorage.deleteStage
  cases hf : s.getStage stid orgId with
  | none =>
    intro x hx hxt
    unfold MemStorage.getStage at hf
    cases hf2 : s.stages.find? (fun st => st.id = stid) with
    | none => exact (List.find?_eq_none.mp hf2 x hx) (by simpa using hxt)
    | some y =>
      rw [hf2] at hf
      dsimp only at hf
      have hyid : y.id = stid := by simpa using List.find?_some hf2
      rw [if_pos (horg y (List.mem_of_find?_eq_some hf2) hyid)] at hf
      cases hf
  | some _ =>
    dsimp only
    intro x hx hxt
    have h2 := (List.mem_filter.mp hx).2
    have h3 : ¬ x.id = stid := by simpa using h2
    exact h3 hxt

/-- After `deleteStage stid orgId`, no lead with id `tid` remains,
when the stage is present, every stage with id `stid` belongs to the
organization, and every lead with id `tid` belongs to the organization
and sits in stage `stid` (cascade). -/
theorem deleteStage_removes_leads (s : MemStorage) (stid tid orgId : String)
    (horgS : ∀ x ∈ s.stages, x.id = stid → x.orgId = orgId)
    (hpresS : ∃ x ∈ s.stages, x.id = stid)
    (htgt : ∀ x ∈ s.leads, x.id = tid → x.orgId = orgId ∧ x.stageId = stid) :
    ∀ x ∈ (s.deleteStage stid orgId).leads, ¬ x.id = tid := by
  obtain ⟨st', hst'⟩ := getStage_isSome s stid orgId horgS hpresS
  unfold MemStorage.deleteStage
  rw [hst']
  dsimp only
  by_cases hex : ∃ l ∈ s.leads, l.id = tid
  · obtain ⟨l, hlmem, hlid⟩ := hex
    obtain ⟨hlorg, hlst⟩ := htgt l hlmem hlid
    have hls : ∃ y ∈ s.getLeads stid orgId, y.id = tid := by
      unfold MemStorage.getLeads
      exact ⟨l, (List.perm_insertionSort _ _).mem_iff.mpr
        (List.mem_filter.mpr ⟨hlmem, by simp [hlst, hlorg]⟩), hlid⟩
    exact foldl_dl_removes_lead orgId tid _ s (fun x hx hxt => (htgt x hx hxt).1) hls
  · intro x hx hxt
    have hsub := foldl_field_sublist MemStorage.leads
      (fun (acc : MemStorage) (l : Lead) => acc.deleteLead l.id orgId)
      (fun s2 l => deleteLead_leads_sublist s2 l.id orgId) (s.getLeads stid orgId) s
    exact hex ⟨x, hsub.subset hx, hxt⟩

/-- After `deleteStage stid orgId`, no comment with id `t` remains,
when the stage is present, the lead `lid` of the comment is present in
stage `stid`, and the organization-consistency conditions hold
(two-level cascade). -/
theorem deleteStage_removes_comments (s : MemStorage) (stid lid t orgId : String)
    (horgS : ∀ x ∈ s.stages, x.id = stid → x.orgId = orgId)
    (hpresS : ∃ x ∈ s.stages, x.id = stid)
    (htgtL : ∀ x ∈ s.leads, x.id = lid → x.orgId = orgId ∧ x.stageId = stid)
    (hpresL : ∃ x ∈ s.leads, x.id = lid)
    (horgC : ∀ x ∈ s.leadComments, x.id = t → x.orgId = orgId)
    (hCl : ∀ x ∈ s.leadComments, x.id = t → x.leadId = lid) :
    ∀ x ∈ (s.deleteStage stid orgId).leadComments, ¬ x.id = t := by
  obtain ⟨st', hst'⟩ := getStage_isSome s stid orgId horgS hpresS
  unfold MemStorage.deleteStage
  rw [hst']
  dsimp only
  obtain ⟨l, hlmem, hlid⟩ := hpresL
  obtain ⟨hlorg, hlst⟩ := htgtL l hlmem hlid
  have hls : ∃ y ∈ s.getLeads stid orgId, y.id = lid := by
    unfold MemStorage.getLeads
    exact ⟨l, (List.perm_insertionSort _ _).mem_iff.mpr
      (List.mem_filter.mpr ⟨hlmem, by simp [hlst, hlorg]⟩), hlid⟩
  exact foldl_dl_removes_comment orgId lid t _ s (fun x hx hxt => (htgtL x hx hxt).1)
    horgC hCl hls ⟨l, hlmem, hlid⟩

/-- A lead survives a fold of `deleteLead` over a batch whose ids all
differ from its own. -/
theorem foldl_dl_preserves_lead (orgId : String) (l : Lead) :
    ∀ (ls : List Lead) (s : MemStorage), l ∈ s.leads → (∀ y ∈ ls, ¬ l.id = y.id) →
      l ∈ (ls.foldl (fun (acc : MemStorage) (x : Lead) =>
        acc.deleteLead x.id orgId) s).leads := by
  intro ls
  induction ls with
  | nil => intro s hl _; exact hl
  | cons y0 rest ih =>
    intro s hl hids
    rw [List.foldl_cons]
    exact ih (s.deleteLead y0.id orgId)
      (deleteLead_preserves_lead s y0.id orgId l hl (hids y0 (List.mem_cons_self _ _)))
      (fun y hy => hids y (List.mem_cons_of_mem _ hy))

/-- A stage with a different id survives `deleteStage`. -/
theorem deleteStage_preserves_stage (s : MemStorage) (stid' orgId : String) (st : Stage)
    (hst : st ∈ s.stages) (hne : ¬ st.id = stid') :
    st ∈ (s.deleteStage stid' orgId).stages := by
  unfold MemStorage.deleteStage
  cases hf : s.getStage stid' orgId with
  | none => exact hst
  | some _ =>
    dsimp only
    have heq : ((s.getLeads stid' orgId).foldl
        (fun (acc : MemStorage) (l : Lead) => acc.deleteLead l.id orgId) s).stages =
          s.stages :=
      foldl_field_eq MemStorage.stages
        (fun (acc : MemStorage) (l : Lead) => acc.deleteLead l.id orgId)
        (fun s2 l => deleteLead_stages s2 l.id orgId) _ s
    rw [heq]
    exact List.mem_filter.mpr ⟨hst, by simpa using hne⟩

/-- A lead of a different stage survives `deleteStage`, when lead ids
are unambiguous. -/
theorem deleteStage_preserves_lead (s : MemStorage) (stid' orgId : String) (l : Lead)
    (hinj : ∀ x ∈ s.leads, ∀ y ∈ s.leads, x.id = y.id → x = y)
    (hl : l ∈ s.leads) (hne : ¬ l.stageId = stid') :
    l ∈ (s.deleteStage stid' orgId).leads := by
  unfold MemStorage.deleteStage
  cases hf : s.getStage stid' orgId with
  | none => exact hl
  | some _ =>
    dsimp only
    apply foldl_dl_preserves_lead orgId l (s.getLeads stid' orgId) s hl
    intro y hy hid
    unfold MemStorage.getLeads at hy
    have hy' := (List.perm_insertionSort _ _).mem_iff.mp hy
    have h2 := List.mem_filter.mp hy'
    have h3 : y.stageId = stid' ∧ y.orgId = orgId := by simpa using h2.2
    exact hne (by rw [hinj l hl y h2.1 hid]; exact h3.1)

/-- Folding `deleteStage` over a batch that contains the target id
removes every stage with that id. -/
theorem foldl_ds_removes_stage (orgId stid : String) :
    ∀ (sts : List Stage) (s : MemStorage),
      (∀ x ∈ s.stages, x.id = stid → x.orgId = orgId) →
      (∃ y ∈ sts, y.id = stid) →
      ∀ x ∈ (sts.foldl (fun (acc : MemStorage) (st : Stage) =>
          acc.deleteStage st.id orgId) s).stages, ¬ x.id = stid := by
  intro sts
  induction sts with
  | nil =>
    intro s _ hex
    obtain ⟨y, hy, _⟩ := hex
    cases hy
  | cons st0 rest ih =>
    intro s horg hex
    rw [List.foldl_cons]
    by_cases h0 : st0.id = stid
    · rw [h0]
      have habs := deleteStage_removes_stage s stid orgId horg
      intro x hx hxt
      have hsub := foldl_field_sublist MemStorage.stages
        (fun (acc : MemStorage) (st : Stage) => acc.deleteStage st.id orgId)
        (fun (s2 : MemStorage) (st : Stage) => deleteStage_stages_sublist s2 st.id orgId)
        rest (s.deleteStage stid orgId)
      exact habs x (hsub.subset hx) hxt
    · apply ih
      · intro x hx hxt
        exact horg x ((deleteStage_stages_sublist s st0.id orgId).subset hx) hxt
      · obtain ⟨y, hy, hyt⟩ := hex
        rcases List.mem_cons.mp hy with rfl | h
        · exact absurd hyt h0
        · exact ⟨y, h, hyt⟩

/-- Folding `deleteStage` over a batch that contains the stage `stid`
removes every lead with id `tid` sitting in that stage. -/
theorem foldl_ds_removes_lead (orgId stid tid : String) :
    ∀ (sts : List Stage) (s : MemStorage),
      (∀ x ∈ s.stages, x.id = stid → x.orgId = orgId) →
      (∀ x ∈ s.leads, x.id = tid → x.orgId = orgId ∧ x.stageId = stid) →
      (∃ y ∈ sts, y.id = stid) →
      (∃ x ∈ s.stages, x.id = stid) →
      ∀ x ∈ (sts.foldl (fun (acc : MemStorage) (st : Stage) =>
          acc.deleteStage st.id orgId) s).leads, ¬ x.id = tid := by
  intro sts
  induction sts with
  | nil =>
    intro s _ _ hex _
    obtain ⟨y, hy, _⟩ := hex
    cases hy
  | cons st0 rest ih =>
    intro s horgS htgtL hex hpresS
    rw [List.foldl_cons]
    by_cases h0 : st0.id = stid
    · rw [h0]
      have habs := deleteStage_removes_leads s stid tid orgId horgS hpresS htgtL
      intro x hx hxt
      have hsub := foldl_field_sublist MemStorage.leads
        (fun (acc : MemStorage) (st : Stage) => acc.deleteStage st.id orgId)
        (fun (s2 : MemStorage) (st : Stage) => deleteStage_leads_sublist s2 st.id orgId)
        rest (s.deleteStage stid orgId)
      exact habs x (hsub.subset hx) hxt
    · apply ih
      · intro x hx hxt
        exact horgS x ((deleteStage_stages_sublist s st0.id orgId).subset hx) hxt
      · intro x hx hxt
        exact htgtL x ((deleteStage_leads_sublist s st0.id orgId).subset hx) hxt
      · obtain ⟨y, hy, hyt⟩ := hex
        rcases List.mem_cons.mp hy with rfl | h
        · exact absurd hyt h0
        · exact ⟨y, h, hyt⟩
      · obtain ⟨y, hymem, hyid⟩ := hpresS
        refine ⟨y, deleteStage_preserves_stage s st0.id orgId y hymem ?_, hyid⟩
        intro h
        rw [h] at hyid
        exact h0 hyid

/-- Folding `deleteStage` over a batch that contains the stage `stid`
removes every comment with id `t` of the lead `lid` of that stage. -/
theorem foldl_ds_removes_comment (orgId stid lid t : String) :
    ∀ (sts : List Stage) (s : MemStorage),
      (∀ x ∈ s.stages, x.id = stid → x.orgId = orgId) →
      (∀ x ∈ s.leads, x.id = lid → x.orgId = orgId ∧ x.stageId = stid) →
      (∀ x ∈ s.leads, ∀ y ∈ s.leads, x.id = y.id → x = y) →
      (∀ x ∈ s.leadComments, x.id = t → x.orgId = orgId) →
      (∀ x ∈ s.leadComments, x.id = t → x.leadId = lid) →
      (∃ y ∈ sts, y.id = stid) →
      (∃ x ∈ s.stages, x.id = stid) →
      (∃ x ∈ s.leads, x.id = lid) →
      ∀ x ∈ (sts.foldl (fun (acc : MemStorage) (st : Stage) =>
          acc.deleteStage st.id orgId) s).leadComments, ¬ x.id = t := by
  intro sts
  induction sts with
  | nil =>
    intro s _ _ _ _ _ hex _ _
    obtain ⟨y, hy, _⟩ := hex
    cases hy
  | cons st0 rest ih =>
    intro s horgS htgtL hinjL horgC hCl hex hpresS hpresL
    rw [List.foldl_cons]
    by_cases h0 : st0.id = stid
    · rw [h0]
      have habs := deleteStage_removes_comments s stid lid t orgId horgS hpresS htgtL
        hpresL horgC hCl
      intro x hx hxt
      have hsub := foldl_field_sublist MemStorage.leadComments
        (fun (acc : MemStorage) (st : Stage) => acc.deleteStage st.id orgId)
        (fun (s2 : MemStorage) (st : Stage) => deleteStage_comments_sublist s2 st.id orgId)
        rest (s.deleteStage stid orgId)
      exact habs x (hsub.subset hx) hxt
    · apply ih
      · intro x hx hxt
        exact horgS x ((deleteStage_stages_sublist s st0.id orgId).subset hx) hxt
      · intro x hx hxt
        exact htgtL x ((deleteStage_leads_sublist s st0.id orgId).subset hx) hxt
      · intro x hx y hy hxy
        exact hinjL x ((deleteStage_leads_sublist s st0.id orgId).subset hx)
          y ((deleteStage_leads_sublist s st0.id orgId).subset hy) hxy
      · intro x hx hxt
        exact horgC x ((deleteStage_comments_sublist s st0.id orgId).subset hx) hxt
      · intro x hx hxt
        exact hCl x ((deleteStage_comments_sublist s st0.id orgId).subset hx) hxt
      · obtain ⟨y, hy, hyt⟩ := hex
        rcases List.mem_cons.mp hy with rfl | h
        · exact absurd hyt h0
        · exact ⟨y, h, hyt⟩
      · obtain ⟨y, hymem, hyid⟩ := hpresS
        refine ⟨y, deleteStage_preserves_stage s st0.id orgId y hymem ?_, hyid⟩
        intro h
        rw [h] at hyid
        exact h0 hyid
      · obtain ⟨y, hymem, hyid⟩ := hpresL
        refine ⟨y, deleteStage_preserves_lead s st0.id orgId y hinjL hymem ?_, hyid⟩
        intro h
        have hstage := (htgtL y hymem hyid).2
        rw [h] at hstage
        exact h0 hstage

-- ---------------------------------------------------------------------
-- C1: deleting a pipeline cascades to its stages, leads and comments
-- ---------------------------------------------------------------------

/-- C1: `deletePipeline P O` on a tenant-consistent store removes the
pipeline record, every stage of pipeline `P`, every lead of those
stages, and every comment of those leads: afterwards none of them
remains in the store.  The hypotheses state that ids are unambiguous
(they are uuid map keys) and that children carry their parent's
organization id — the tenant-isolation invariant of the store. -/
theorem deletePipeline_cascades (s : MemStorage) (P O : String)
    (hnodupS : (s.stages.map Stage.id).Nodup)
    (hnodupL : (s.leads.map Lead.id).Nodup)
    (hnodupC : (s.leadComments.map LeadComment.id).Nodup)
    (hp : (s.getPipeline P O).isSome)
    (hstO : ∀ st ∈ s.stages, st.pipelineId = P → st.orgId = O)
    (hldO : ∀ l ∈ s.leads, ∀ st ∈ s.stages,
      st.pipelineId = P → l.stageId = st.id → l.orgId = O)
    (hcmO : ∀ c ∈ s.leadComments, ∀ l ∈ s.leads, ∀ st ∈ s.stages,
      st.pipelineId = P → l.stageId = st.id → c.leadId = l.id → c.orgId = O) :
    (∀ p ∈ (s.deletePipeline P O).pipelines, ¬ p.id = P) ∧
      (∀ st ∈ (s.deletePipeline P O).stages, ¬ st.pipelineId = P) ∧
      (∀ l ∈ (s.deletePipeline P O).leads, ∀ st ∈ s.stages,
        st.pipelineId = P → ¬ l.stageId = st.id) ∧
      (∀ c ∈ (s.deletePipeline P O).leadComments, ∀ l ∈ s.leads, ∀ st ∈ s.stages,
        st.pipelineId = P → l.stageId = st.id → ¬ c.leadId = l.id) := by
  obtain ⟨p0, hp0⟩ := Option.isSome_iff_exists.mp hp
  have hinjS : ∀ x ∈ s.stages, ∀ y ∈ s.stages, x.id = y.id → x = y :=
    fun x hx y hy h => nodup_key_inj Stage.id s.stages hnodupS hx hy h
  have hinjL : ∀ x ∈ s.leads, ∀ y ∈ s.leads, x.id = y.id → x = y :=
    fun x hx y hy h => nodup_key_inj Lead.id s.leads hnodupL hx hy h
  have hinjC : ∀ x ∈ s.leadComments, ∀ y ∈ s.leadComments, x.id = y.id → x = y :=
    fun x hx y hy h => nodup_key_inj LeadComment.id s.leadComments hnodupC hx hy h
  have hsubS := foldl_field_sublist MemStorage.stages
    (fun (acc : MemStorage) (st : Stage) => acc.deleteStage st.id O)
    (fun (s2 : MemStorage) (st : Stage) => deleteStage_stages_sublist s2 st.id O)
    (s.getStages P O) s
  have hsubL := foldl_field_sublist MemStorage.leads
    (fun (acc : MemStorage) (st : Stage) => acc.deleteStage st.id O)
    (fun (s2 : MemStorage) (st : Stage) => deleteStage_leads_sublist s2 st.id O)
    (s.getStages P O) s
  have hsubC := foldl_field_sublist MemStorage.leadComments
    (fun (acc : MemStorage) (st : Stage) => acc.deleteStage st.id O)
    (fun (s2 : MemStorage) (st : Stage) => deleteStage_comments_sublist s2 st.id O)
    (s.getStages P O) s
  unfold MemStorage.deletePipeline
  rw [hp0]
  dsimp only
  refine ⟨?_, ?_, ?_, ?_⟩
  · intro p hp2 hpid
    have h2 := (List.mem_filter.mp hp2).2
    have h3 : ¬ p.id = P := by simpa using h2
    exact h3 hpid
  · intro st hst hstP
    have hstS : st ∈ s.stages := hsubS.subset hst
    have horg : st.orgId = O := hstO st hstS hstP
    have hmemsts : st ∈ s.getStages P O := by
      unfold MemStorage.getStages
      exact (List.perm_insertionSort _ _).mem_iff.mpr
        (List.mem_filter.mpr ⟨hstS, by simp [hstP, horg]⟩)
    exact foldl_ds_removes_stage O st.id (s.getStages P O) s
      (fun x hx hxid => by rw [hinjS x hx st hstS hxid]; exact horg)
      ⟨st, hmemsts, rfl⟩ st hst rfl
  · intro l hl st hstS hstP hlst
    have hlS : l ∈ s.leads := hsubL.subset hl
    have hlorg : l.orgId = O := hldO l hlS st hstS hstP hlst
    have hstorg : st.orgId = O := hstO st hstS hstP
    have hmemsts : st ∈ s.getStages P O := by
      unfold MemStorage.getStages
      exact (List.perm_insertionSort _ _).mem_iff.mpr
        (List.mem_filter.mpr ⟨hstS, by simp [hstP, hstorg]⟩)
    exact foldl_ds_removes_lead O st.id l.id (s.getStages P O) s
      (fun x hx hxid => by rw [hinjS x hx st hstS hxid]; exact hstorg)
      (fun x hx hxid => by rw [hinjL x hx l hlS hxid]; exact ⟨hlorg, hlst⟩)
      ⟨st, hmemsts, rfl⟩ ⟨st, hstS, rfl⟩ l hl rfl
  · intro c hc l hlS st hstS hstP hlst hcl
    have hcS : c ∈ s.leadComments := hsubC.subset hc
    have hco : c.orgId = O := hcmO c hcS l hlS st hstS hstP hlst hcl
    have hlorg : l.orgId = O := hldO l hlS st hstS hstP hlst
    have hstorg : st.orgId = O := hstO st hstS hstP
    have hmemsts : st ∈ s.getStages P O := by
      unfold MemStorage.getStages
      exact (List.perm_insertionSort _ _).mem_iff.mpr
        (List.mem_filter.mpr ⟨hstS, by simp [hstP, hstorg]⟩)
    exact foldl_ds_removes_comment O st.id l.id c.id (s.getStages P O) s
      (fun x hx hxid => by rw [hinjS x hx st hstS hxid]; exact hstorg)
      (fun x hx hxid => by rw [hinjL x hx l hlS hxid]; exact ⟨hlorg, hlst⟩)
      hinjL
      (fun x hx hxid => by rw [hinjC x hx c hcS hxid]; exact hco)
      (fun x hx hxid => by rw [hinjC x hx c hcS hxid]; exact hcl)
      ⟨st, hmemsts, rfl⟩ ⟨st, hstS, rfl⟩ ⟨l, hlS, rfl⟩ c hc rfl

/-- Witness for C1 at the concrete store: after deleting pipeline `p1`
of `org1`, its stage, its lead, its comment and the pipeline record
itself are all gone. -/
theorem deletePipeline_cascades_witness :
    ¬ ((⟨"s1", "org1", "p1", "New", 1, 0⟩ : Stage) ∈
        (exStore.deletePipeline "p1" "org1").stages) ∧
      ¬ ((⟨"l1", "org1", "s1", "Acme", none, none, none, none, 0, 0⟩ : Lead) ∈
        (exStore.deletePipeline "p1" "org1").leads) ∧
      ¬ ((⟨"c1", "org1", "l1", "hello", "u1", none, 0⟩ : LeadComment) ∈
        (exStore.deletePipeline "p1" "org1").leadComments) ∧
      ¬ ((⟨"p1", "org1", "Sales", 0⟩ : Pipeline) ∈
        (exStore.deletePipeline "p1" "org1").pipelines) := by
  have h := deletePipeline_cascades exStore "p1" "org1" (by decide) (by decide) (by decide)
    (by decide) (by decide) (by decide) (by decide)
  refine ⟨fun hmem => ?_, fun hmem => ?_, fun hmem => ?_, fun hmem => ?_⟩
  · exact h.2.1 _ hmem rfl
  · exact h.2.2.1 _ hmem (⟨"s1", "org1", "p1", "New", 1, 0⟩ : Stage) (by decide) rfl rfl
  · exact h.2.2.2 _ hmem (⟨"l1", "org1", "s1", "Acme", none, none, none, none, 0, 0⟩ : Lead)
      (by decide) (⟨"s1", "org1", "p1", "New", 1, 0⟩ : Stage) (by decide) rfl rfl rfl
  · exact h.1 _ hmem rfl

end SaaS
